import Mathlib

/-!
Verification of the go-torrent client against its specification.

Each Go function that a claim depends on is embedded as a Lean definition
operating on `Nat`/`Int`/`List Nat` (bytes are naturals, `< 256` in
well-formed states; Go byte arithmetic is masked explicitly where it
matters).  Stateful code becomes explicit state passing; fallible code
returns `Except`/`Option`.
-/

namespace GoTorrent

/-! ### Bitfield (peer bitfield.go / utils Bitfield)

The Go type is `type bitfield []byte`; `get`/`set` address bit `index`
as bit `7 - index % 8` of byte `index / 8`.  Negative indices do not
occur in the claims; the index is modelled as `Nat`. -/

/-- Embeds `func (bf bitfield) get(index int) bool` (the source's local
`bucket := index / 8` is inlined). -/
def bitfield.get (bf : List Nat) (index : Nat) : Bool :=
  if index / 8 ≥ bf.length then false
  else (bf.getD (index / 8) 0 >>> (7 - index % 8)) &&& 1 != 0

/-- Embeds `func (bf bitfield) set(index int)` (in-place write modelled
as returning the updated byte list; out-of-range writes return the list
unchanged, as the Go code returns without writing). -/
def bitfield.set (bf : List Nat) (index : Nat) : List Nat :=
  if index / 8 ≥ bf.length then bf
  else bf.set (index / 8) (bf.getD (index / 8) 0 ||| (1 <<< (7 - index % 8)))

example : bitfield.get [0b11001100, 0b10101010] 0 = true := by decide
example : bitfield.get [0b11001100, 0b10101010] 2 = false := by decide
example : bitfield.get [0b11001100, 0b10101010] 8 = true := by decide
example : bitfield.get [0b11001100, 0b10101010] 16 = false := by decide
example : bitfield.set [0, 0] 9 = [0, 0b01000000] := by decide

/-- Setting a bit makes the corresponding shifted-and test succeed. -/
lemma lor_shift_and_one (b k : Nat) : ((b ||| 1 <<< k) >>> k) &&& 1 ≠ 0 := by
  have h : (b ||| 1 <<< k).testBit k = true := by
    rw [Nat.testBit_lor]
    have h2 : (1 <<< k).testBit k = true := by
      rw [Nat.shiftLeft_eq, one_mul]; exact Nat.testBit_two_pow_self
    simp [h2]
  rw [Nat.testBit_to_div_mod] at h
  rw [Nat.and_one_is_mod, Nat.shiftRight_eq_div_pow]
  simp only [decide_eq_true_eq] at h
  omega

/-- C9 counterexample: the get-after-set law fails as universally stated,
because an out-of-range write is a no-op and an out-of-range read returns
false.  At `bf = []`, `i = 0` the set is silently ignored. -/
theorem bitfield_get_after_set_cex :
    bitfield.get (bitfield.set ([] : List Nat) 0) 0 = false := by decide

/-- C9 (amended): for indices inside the bitfield (`i < 8 * length`),
`get` after `set` at the same index is true; for an index at or beyond
the length, `get` returns false (without panicking — the function is
total) and `set` silently leaves the bitfield unchanged. -/
theorem bitfield_get_set_law (bf : List Nat) (i : Nat) :
    (i < 8 * bf.length → bitfield.get (bitfield.set bf i) i = true) ∧
    (8 * bf.length ≤ i → bitfield.get bf i = false ∧ bitfield.set bf i = bf) := by
  constructor
  · intro h
    have hb : i / 8 < bf.length := by
      rw [Nat.div_lt_iff_lt_mul (by norm_num)]; omega
    have hset : bitfield.set bf i =
        bf.set (i / 8) (bf.getD (i / 8) 0 ||| (1 <<< (7 - i % 8))) := by
      unfold bitfield.set; rw [if_neg (by omega)]
    rw [hset]
    unfold bitfield.get
    rw [List.length_set, if_neg (by omega)]
    rw [List.getD_eq_getElem?_getD, List.getElem?_set_self hb]
    simp only [Option.getD_some]
    exact bne_iff_ne.mpr (lor_shift_and_one _ _)
  · intro h
    have hb : bf.length ≤ i / 8 := by
      rw [Nat.le_div_iff_mul_le (by norm_num)]; omega
    refine ⟨?_, ?_⟩
    · unfold bitfield.get; rw [if_pos (by omega)]
    · unfold bitfield.set; rw [if_pos (by omega)]

/-- Witness for `bitfield_get_set_law` at `bf = [0, 0]`, `i = 3` (in
range) and `i = 16` (out of range). -/
theorem bitfield_get_set_law_witness :
    bitfield.get (bitfield.set [0, 0] 3) 3 = true ∧
    bitfield.get [0, 0] 16 = false ∧ bitfield.set [0, 0] 16 = [0, 0] :=
  ⟨(bitfield_get_set_law [0, 0] 3).1 (by decide),
   ((bitfield_get_set_law [0, 0] 16).2 (by decide)).1,
   ((bitfield_get_set_law [0, 0] 16).2 (by decide)).2⟩

/-! ### Handshake with extension bits (torrent extensions: `Handshake`,
`ParseHandshakeExtensions`)

The Go code builds a 68-byte handshake
`pstrlen | "BitTorrent protocol" | reserved[8] | hash[20] | id[20]`
by copying the two fixed 20-byte arrays into a preallocated buffer;
with 20-byte inputs this equals the concatenation below. -/

/-- ASCII bytes of the Go constant `Protocol = "BitTorrent protocol"`. -/
def Protocol : List Nat :=
  [66, 105, 116, 84, 111, 114, 114, 101, 110, 116, 32,
   112, 114, 111, 116, 111, 99, 111, 108]

/-- The constant `HandshakeSize = 1 + len(Protocol) + 8 + 20 + 20`. -/
def HandshakeSize : Nat := 1 + Protocol.length + 8 + 20 + 20

/-- Embeds `func Handshake(metadataHash, id [20]byte) []byte`:
reserved byte 5 is 0x10 (BEP 10 extensions), byte 7 is 0x01 (DHT). -/
def Handshake (metadataHash id : List Nat) : List Nat :=
  Protocol.length :: Protocol ++
    ([0, 0, 0, 0, 0, 0x10, 0, 0x01] ++ (metadataHash ++ id))

/-- Embeds `func ParseHandshakeExtensions(handshake []byte) (bool, bool)`:
returns `(supportsDHT, supportsExtended)`; a handshake shorter than
`HandshakeSize` yields `(false, false)`.  (The Go slice
`handshake[1+protocolLen : 1+protocolLen+8]` is modelled by the total
`drop`/`take`; for built handshakes `protocolLen = 19` keeps it in
range.) -/
def ParseHandshakeExtensions (handshake : List Nat) : Bool × Bool :=
  if handshake.length < HandshakeSize then (false, false)
  else
    (((handshake.drop (1 + handshake.getD 0 0)).take 8).getD 7 0 &&& 0x01 != 0,
     ((handshake.drop (1 + handshake.getD 0 0)).take 8).getD 5 0 &&& 0x10 != 0)

/-- C7: the built handshake is 68 bytes: pstrlen 19, the protocol
string, reserved bytes with `reserved[5] = 0x10` and `reserved[7] = 0x01`,
then the info-hash at offset 28 and the client id at offset 48; parsing
the built handshake reports both DHT and extension support. -/
theorem handshake_roundtrip (h c : List Nat)
    (hh : h.length = 20) (hc : c.length = 20) :
    (Handshake h c).length = 68 ∧
    (Handshake h c).getD 0 0 = 19 ∧
    ((Handshake h c).drop 1).take 19 = Protocol ∧
    (Handshake h c).getD 25 0 = 0x10 ∧
    (Handshake h c).getD 27 0 = 0x01 ∧
    ((Handshake h c).drop 28).take 20 = h ∧
    ((Handshake h c).drop 48).take 20 = c ∧
    ParseHandshakeExtensions (Handshake h c) = (true, true) := by
  have hlen : (Handshake h c).length = 68 := by
    simp [Handshake, Protocol, hh, hc]
  refine ⟨hlen, rfl, rfl, rfl, rfl, ?_, ?_, ?_⟩
  · exact List.take_left' hh
  · show (List.drop 20 (h ++ c)).take 20 = c
    rw [List.drop_left' hh]
    exact List.take_of_length_le (le_of_eq hc)
  · unfold ParseHandshakeExtensions
    rw [if_neg (by rw [hlen]; decide)]
    have e7 : (List.take 8 (List.drop (1 + (Handshake h c).getD 0 0)
        (Handshake h c))).getD 7 0 = 1 := rfl
    have e5 : (List.take 8 (List.drop (1 + (Handshake h c).getD 0 0)
        (Handshake h c))).getD 5 0 = 16 := rfl
    rw [e7, e5]; decide

/-- Witness for `handshake_roundtrip` at concrete 20-byte inputs. -/
theorem handshake_roundtrip_witness :
    ParseHandshakeExtensions
      (Handshake (List.replicate 20 7) (List.replicate 20 9)) =
      (true, true) :=
  (handshake_roundtrip (List.replicate 20 7) (List.replicate 20 9)
    (by decide) (by decide)).2.2.2.2.2.2.2

/-! ### Peer message frame reader (messages.go `ReadMessage`)

The connection is modelled as the list of bytes still to be read; a Go
`io.ReadFull` that runs out of bytes is an error.  `ReadMessage` loops
while the declared length is zero (keep-alive), consuming 4 bytes per
iteration, so it terminates on a finite stream. -/

/-- Message type byte and payload, as in `type Message struct`. -/
structure Message where
  type : Nat
  Payload : List Nat
deriving DecidableEq

/-- Go `binary.BigEndian.Uint32` over the first four bytes of a list. -/
def beUint32 (b : List Nat) : Nat :=
  b.getD 0 0 * 0x1000000 + b.getD 1 0 * 0x10000 +
    b.getD 2 0 * 0x100 + b.getD 3 0

/-- Embeds `func ReadMessage(reader io.Reader) (*Message, error)`:
read a 4-byte big-endian length; length 0 is a keep-alive and the read
is retried; otherwise read exactly that many bytes — byte 0 is the type
and the rest the payload.  There is no upper bound on the declared
length. -/
def ReadMessage (s : List Nat) : Except String (Message × List Nat) :=
  if _h : s.length < 4 then .error "short read: length prefix"
  else
    if beUint32 (s.take 4) = 0 then ReadMessage (s.drop 4)
    else if (s.drop 4).length < beUint32 (s.take 4) then
      .error "short read: payload"
    else
      .ok ({ type := (s.drop 4).getD 0 0,
             Payload := ((s.drop 4).take (beUint32 (s.take 4))).drop 1 },
           (s.drop 4).drop (beUint32 (s.take 4)))
termination_by s.length
decreasing_by simp; omega
lemma ReadMessage_cons_keepalive (s : List Nat) :
    ReadMessage (0 :: 0 :: 0 :: 0 :: s) = ReadMessage s := by
  rw [ReadMessage]
  rw [dif_neg (by simp)]
  have ht : ((0 :: 0 :: 0 :: 0 :: s).take 4) = [0, 0, 0, 0] := rfl
  have hd : ((0 :: 0 :: 0 :: 0 :: s).drop 4) = s := rfl
  rw [ht, hd, if_pos (by decide)]

lemma ReadMessage_cons_ok (b0 b1 b2 b3 : Nat) (s : List Nat)
    (hn : beUint32 [b0, b1, b2, b3] ≠ 0)
    (hle : beUint32 [b0, b1, b2, b3] ≤ s.length) :
    ReadMessage (b0 :: b1 :: b2 :: b3 :: s) =
      .ok ({ type := s.getD 0 0,
             Payload := (s.take (beUint32 [b0, b1, b2, b3])).drop 1 },
           s.drop (beUint32 [b0, b1, b2, b3])) := by
  rw [ReadMessage]
  rw [dif_neg (by simp)]
  have ht : ((b0 :: b1 :: b2 :: b3 :: s).take 4) = [b0, b1, b2, b3] := rfl
  have hd : ((b0 :: b1 :: b2 :: b3 :: s).drop 4) = s := rfl
  rw [ht, hd, if_neg hn, if_neg (by omega)]

lemma ReadMessage_cons_short (b0 b1 b2 b3 : Nat) (s : List Nat)
    (hn : beUint32 [b0, b1, b2, b3] ≠ 0)
    (hlt : s.length < beUint32 [b0, b1, b2, b3]) :
    ReadMessage (b0 :: b1 :: b2 :: b3 :: s) = .error "short read: payload" := by
  rw [ReadMessage]
  rw [dif_neg (by simp)]
  have ht : ((b0 :: b1 :: b2 :: b3 :: s).take 4) = [b0, b1, b2, b3] := rfl
  have hd : ((b0 :: b1 :: b2 :: b3 :: s).drop 4) = s := rfl
  rw [ht, hd, if_neg hn, if_pos (by omega)]

/-- C4 counterexample: a frame declaring a length of 1 MiB + 1 bytes
(big-endian 0x00100001 = 1048577) with its payload available is accepted
whole by `ReadMessage` — the reader has no 1 MiB safety cap. -/
theorem ReadMessage_no_size_cap_cex :
    ReadMessage (0 :: 16 :: 0 :: 1 :: List.replicate 1048577 7) =
      .ok ({ type := 7, Payload := List.replicate 1048576 7 }, []) := by
  have hb : beUint32 [0, 16, 0, 1] = 1048577 := by decide
  have h := ReadMessage_cons_ok 0 16 0 1 (List.replicate 1048577 7)
    (by rw [hb]; omega) (by rw [hb, List.length_replicate])
  rw [hb] at h
  rw [h]
  have h1 : (1048577 : Nat) = 1048576 + 1 := by norm_num
  have e1 : (List.replicate 1048577 (7 : Nat)).getD 0 0 = 7 := by
    rw [h1, List.replicate_succ, List.getD_cons_zero]
  have e2 : ((List.replicate 1048577 (7 : Nat)).take 1048577).drop 1 =
      List.replicate 1048576 7 := by
    rw [List.take_replicate, min_self, h1, List.replicate_succ, List.drop_one,
      List.tail_cons]
  have e3 : (List.replicate 1048577 (7 : Nat)).drop 1048577 = [] := by
    rw [List.drop_replicate]
    simp
  rw [e1, e2, e3]

/-- C4 (amended): the reader transparently skips keep-alive frames
(declared length 0); for a nonzero declared length `n` it accepts the
frame whenever `n` bytes follow — with no upper bound on `n` — and it
errors exactly on a short read. -/
theorem ReadMessage_framing (b0 b1 b2 b3 : Nat) (s : List Nat) :
    (ReadMessage (0 :: 0 :: 0 :: 0 :: s) = ReadMessage s) ∧
    (beUint32 [b0, b1, b2, b3] ≠ 0 → beUint32 [b0, b1, b2, b3] ≤ s.length →
      ReadMessage (b0 :: b1 :: b2 :: b3 :: s) =
        .ok ({ type := s.getD 0 0,
               Payload := (s.take (beUint32 [b0, b1, b2, b3])).drop 1 },
             s.drop (beUint32 [b0, b1, b2, b3]))) ∧
    (beUint32 [b0, b1, b2, b3] ≠ 0 → s.length < beUint32 [b0, b1, b2, b3] →
      ReadMessage (b0 :: b1 :: b2 :: b3 :: s) = .error "short read: payload") :=
  ⟨ReadMessage_cons_keepalive s, ReadMessage_cons_ok b0 b1 b2 b3 s,
   ReadMessage_cons_short b0 b1 b2 b3 s⟩

/-- Witness for `ReadMessage_framing`: a keep-alive frame followed by a
2-byte frame `[9, 7]` and a stray byte parses as type 9, payload `[7]`. -/
theorem ReadMessage_framing_witness :
    ReadMessage [0, 0, 0, 0, 0, 0, 0, 2, 9, 7, 5] =
      .ok ({ type := 9, Payload := [7] }, [5]) := by
  have h0 := (ReadMessage_framing 0 0 0 2 [0, 0, 0, 2, 9, 7, 5]).1
  have h := (ReadMessage_framing 0 0 0 2 [9, 7, 5]).2.1 (by decide) (by decide)
  rw [h0, h]; rfl


/-! ### downloadPiece chunk handling (peer.go)

`downloadPiece` drains incoming chunks; the step below embeds the body
of its drain loop after `p.read()` returned a chunk: the filter on chunk
type and piece index, the bound check, and the copy into the piece
buffer `res` (preallocated with `len(res) = piece.Length`). -/

inductive chunkType where
  | cFile
  | cInfo
deriving DecidableEq

/-- The `type chunk struct` of peer.go. -/
structure chunk where
  chunkType : chunkType
  index : Nat
  begin : Nat
  value : List Nat
deriving DecidableEq

/-- Embeds `func parsePiece(payload []byte) (*chunk, error)`. -/
def parsePiece (payload : List Nat) : Except String chunk :=
  if payload.length < 8 then
    .error "expected message of length at least 8"
  else
    .ok { chunkType := .cFile,
          index := beUint32 (payload.take 4),
          begin := beUint32 ((payload.drop 4).take 4),
          value := payload.drop 8 }

/-- Models the Go builtin `copy(res[begin:], value)` (copies
`min(len(res) - begin, len(value))` bytes of `value` to offset `begin`). -/
def goCopy (res : List Nat) (start : Nat) (value : List Nat) : List Nat :=
  res.take start ++ value.take (res.length - start) ++
    res.drop (start + value.length)

/-- Outcome of handling one received chunk inside `downloadPiece`. -/
inductive chunkOutcome where
  | skip
  | err (msg : String)
  | copied (res : List Nat) (n : Nat)
deriving DecidableEq

/-- Embeds the chunk-dispatch step of `downloadPiece` (peer.go): skip a
chunk of the wrong type or index, reject a chunk whose
`begin + len(value)` exceeds the piece length, otherwise copy it into
the buffer at offset `begin` (`downloaded += copy(res[chunk.begin:],
chunk.value)`). -/
def downloadPieceStep (info : Bool) (pieceIndex pieceLength : Nat)
    (res : List Nat) (c : chunk) : chunkOutcome :=
  if (info ∧ c.chunkType ≠ chunkType.cInfo) ∨
     (¬info ∧ (c.chunkType ≠ chunkType.cFile ∨ c.index ≠ pieceIndex)) then
    .skip
  else if c.begin + c.value.length > pieceLength then
    .err "received a chunk too long"
  else
    .copied (goCopy res c.begin c.value)
      (min (res.length - c.begin) c.value.length)

/-- C3: for a piece-type chunk carrying the assigned piece index, a
block with `begin + len > L` makes `downloadPiece` return an error, and
a block with `begin + len ≤ L` is copied into the piece buffer at offset
`begin`, leaving the buffer length unchanged. -/
theorem downloadPiece_bound_check (pieceIndex pieceLength : Nat)
    (res : List Nat) (c : chunk)
    (hres : res.length = pieceLength)
    (hty : c.chunkType = chunkType.cFile) (hidx : c.index = pieceIndex) :
    (pieceLength < c.begin + c.value.length →
      downloadPieceStep false pieceIndex pieceLength res c =
        .err "received a chunk too long") ∧
    (c.begin + c.value.length ≤ pieceLength →
      downloadPieceStep false pieceIndex pieceLength res c =
        .copied (res.take c.begin ++ c.value ++
            res.drop (c.begin + c.value.length)) c.value.length ∧
      (res.take c.begin ++ c.value ++
          res.drop (c.begin + c.value.length)).length = pieceLength ∧
      ∀ j < c.value.length,
        (res.take c.begin ++ c.value ++
            res.drop (c.begin + c.value.length)).getD (c.begin + j) 0 =
          c.value.getD j 0) := by
  have hskip : ¬ (((false : Bool) ∧ c.chunkType ≠ chunkType.cInfo) ∨
      (¬(false : Bool) ∧ (c.chunkType ≠ chunkType.cFile ∨ c.index ≠ pieceIndex))) := by
    simp [hty, hidx]
  constructor
  · intro hgt
    unfold downloadPieceStep
    rw [if_neg hskip, if_pos (by omega)]
  · intro hle
    have hbegin : c.begin ≤ res.length := by omega
    have hval : c.value.take (res.length - c.begin) = c.value :=
      List.take_of_length_le (by omega)
    have hcopy : goCopy res c.begin c.value =
        res.take c.begin ++ c.value ++ res.drop (c.begin + c.value.length) := by
      unfold goCopy; rw [hval]
    have hmin : min (res.length - c.begin) c.value.length = c.value.length := by
      omega
    have htlen : (res.take c.begin).length = c.begin := by
      rw [List.length_take]; omega
    refine ⟨?_, ?_, ?_⟩
    · unfold downloadPieceStep
      rw [if_neg hskip, if_neg (by omega), hcopy, hmin]
    · simp only [List.length_append, List.length_drop, htlen, hres]
      omega
    · intro j hj
      rw [List.append_assoc]
      rw [List.getD_append_right _ _ _ _ (by omega)]
      rw [htlen, Nat.add_sub_cancel_left]
      exact List.getD_append _ _ _ _ hj

/-- Witness for `downloadPiece_bound_check`: the parsed piece message
`index 2, begin 3, block [9, 9]` fits a 5-byte piece exactly and lands at
offset 3; against a 4-byte piece it is rejected. -/
theorem downloadPiece_bound_check_witness :
    parsePiece [0, 0, 0, 2, 0, 0, 0, 3, 9, 9] =
      .ok { chunkType := .cFile, index := 2, begin := 3, value := [9, 9] } ∧
    downloadPieceStep false 2 5 [5, 5, 5, 5, 5]
      { chunkType := .cFile, index := 2, begin := 3, value := [9, 9] } =
      .copied [5, 5, 5, 9, 9] 2 ∧
    downloadPieceStep false 2 4 [5, 5, 5, 5]
      { chunkType := .cFile, index := 2, begin := 3, value := [9, 9] } =
      .err "received a chunk too long" := by
  refine ⟨rfl, ?_, ?_⟩
  · have h := (downloadPiece_bound_check 2 5 [5, 5, 5, 5, 5]
      { chunkType := .cFile, index := 2, begin := 3, value := [9, 9] }
      (by decide) rfl rfl).2 (by decide)
    rw [h.1]; rfl
  · exact (downloadPiece_bound_check 2 4 [5, 5, 5, 5]
      { chunkType := .cFile, index := 2, begin := 3, value := [9, 9] }
      (by decide) rfl rfl).1 (by decide)

/-! ### DHT node ids: distance and bucket index (dht/node.go, dht/dht.go)

A `NodeID` is a 20-byte identifier, modelled as a `List Nat` of length
20 with entries < 256 in well-formed states. -/

/-- Embeds `func Distance(a, b NodeID) NodeID`: byte-wise xor. -/
def Distance (a b : List Nat) : List Nat := List.zipWith Nat.xor a b

/-- Inner loop of `LeadingZeros`: scan bits `j, j-1, ..., 0` of byte
`b`; return `7 - j` for the first (highest) set bit, `none` if none of
these bits is set. -/
def findFirstBit (b : Nat) : Nat → Option Nat
  | 0 => if b &&& 1 != 0 then some 7 else none
  | j + 1 =>
    if b &&& (1 <<< (j + 1)) != 0 then some (7 - (j + 1)) else findFirstBit b j

/-- Outer loop of `func (id NodeID) LeadingZeros() int`: skip zero
bytes; in the first byte with a set bit return `i*8 + (7 - j)`; return
160 if the loop ends. -/
def LeadingZerosAux : List Nat → Nat → Nat
  | [], _ => 160
  | b :: rest, i =>
    if b = 0 then LeadingZerosAux rest (i + 1)
    else
      match findFirstBit b 7 with
      | some r => i * 8 + r
      | none => LeadingZerosAux rest (i + 1)

/-- Embeds `func (id NodeID) LeadingZeros() int`. -/
def LeadingZeros (id : List Nat) : Nat := LeadingZerosAux id 0

/-- Embeds `func BucketIndex(self, other NodeID) int`. -/
def BucketIndex (self other : List Nat) : Nat :=
  if LeadingZeros (Distance self other) ≥ 160 then 159
  else LeadingZeros (Distance self other)

/-- Embeds `func (d *DHT) randomIDInBucket(bucketIdx int) NodeID`: copy
the own id and xor the byte at `bucketIdx / 8` with a 1 shifted to bit
`7 - bucketIdx % 8` (the randomness in the name is a misnomer — the
function is deterministic). -/
def randomIDInBucket (self : List Nat) (bucketIdx : Nat) : List Nat :=
  self.set (bucketIdx / 8)
    (self.getD (bucketIdx / 8) 0 ^^^ (1 <<< (7 - bucketIdx % 8)))

example : LeadingZeros [0, 0b00010000] = 11 := by decide
example : BucketIndex [255, 0] [15, 0] = 0 := by decide

/-- The function `Nat.xor` cancels itself (stated on the bare application, as it
appears in `zipWith` goals). -/
lemma xor_self_bare (a : Nat) : Nat.xor a a = 0 := Nat.xor_self a

/-- The function `Nat.xor` cancels on the left. -/
lemma xor_cancel_bare (a b : Nat) : Nat.xor a (a ^^^ b) = b := by
  show a ^^^ (a ^^^ b) = b
  rw [← Nat.xor_assoc, Nat.xor_self, Nat.zero_xor]

/-- xor of a list with itself is all zero bytes. -/
lemma zipWith_xor_self (l : List Nat) :
    List.zipWith Nat.xor l l = List.replicate l.length 0 := by
  induction l with
  | nil => rfl
  | cons b t ih =>
    rw [List.zipWith_cons_cons, xor_self_bare, ih]
    rw [List.length_cons, List.replicate_succ]

/-- xor of a list with itself-with-one-byte-xored isolates that byte. -/
lemma zipWith_xor_set (l : List Nat) (k m : Nat) (hk : k < l.length) :
    List.zipWith Nat.xor l (l.set k (l.getD k 0 ^^^ m)) =
      List.replicate k 0 ++ m :: List.replicate (l.length - k - 1) 0 := by
  induction l generalizing k with
  | nil => simp at hk
  | cons b t ih =>
    cases k with
    | zero =>
      simp only [List.set_cons_zero, List.getD_cons_zero, List.zipWith_cons_cons]
      rw [xor_cancel_bare, zipWith_xor_self]
      simp
    | succ k =>
      have hk' : k < t.length := by simpa using hk
      simp only [List.set_cons_succ, List.getD_cons_succ, List.zipWith_cons_cons]
      rw [xor_self_bare, ih k hk']
      simp [List.replicate_succ]

/-- A single set bit at position `7 - r` is found at `r`. -/
lemma findFirstBit_single_bit : ∀ r < 8, findFirstBit (1 <<< (7 - r)) 7 = some r := by
  decide

/-- All-zero byte lists report 160 leading zeros. -/
lemma LeadingZerosAux_replicate_zero (q i : Nat) :
    LeadingZerosAux (List.replicate q 0) i = 160 := by
  induction q generalizing i with
  | zero => rfl
  | succ q ih => rw [List.replicate_succ]; unfold LeadingZerosAux; simp [ih]

/-- Leading zeros of `q` zero bytes followed by a byte whose first set
bit (from bit 7 downward) is at `r`. -/
lemma LeadingZerosAux_single (q i m r : Nat) (hm : m ≠ 0)
    (hf : findFirstBit m 7 = some r) (rest : List Nat) :
    LeadingZerosAux (List.replicate q 0 ++ m :: rest) i = (q + i) * 8 + r := by
  have step : ∀ (L : List Nat) (n : Nat),
      LeadingZerosAux (0 :: L) n = LeadingZerosAux L (n + 1) := by
    intro L n; rfl
  induction q generalizing i with
  | zero =>
    rw [List.replicate_zero, List.nil_append]
    unfold LeadingZerosAux
    rw [if_neg hm, hf]
    show i * 8 + r = (0 + i) * 8 + r
    omega
  | succ q ih =>
    rw [List.replicate_succ, List.cons_append, step, ih (i + 1)]
    omega

/-- C5: `BucketIndex` is the leading-zero count of the XOR distance
capped at 159 (an identical id maps to bucket 159), and flipping the
single bit of `self` at position `i` — `randomIDInBucket(i)` — yields an
id whose bucket index is exactly `i`, for every `i < 160` (including
`i = 47`). -/
theorem BucketIndex_law (self : List Nat) (hlen : self.length = 20) :
    (∀ a, BucketIndex self a = min (LeadingZeros (Distance self a)) 159) ∧
    BucketIndex self self = 159 ∧
    (∀ i < 160, BucketIndex self (randomIDInBucket self i) = i) := by
  refine ⟨?_, ?_, ?_⟩
  · intro a
    unfold BucketIndex
    rcases le_or_lt 160 (LeadingZeros (Distance self a)) with hge | hlt
    · rw [if_pos hge, min_eq_right (by omega)]
    · rw [if_neg (by omega), min_eq_left (by omega)]
  · unfold BucketIndex Distance
    rw [zipWith_xor_self, hlen]
    have h : LeadingZeros (List.replicate 20 0) = 160 :=
      LeadingZerosAux_replicate_zero 20 0
    rw [h]
    decide
  · intro i hi
    have hk : i / 8 < self.length := by
      rw [hlen, Nat.div_lt_iff_lt_mul (by norm_num)]; omega
    have hr : i % 8 < 8 := Nat.mod_lt _ (by norm_num)
    have hm : (1 <<< (7 - i % 8)) ≠ 0 := by
      rw [Nat.shiftLeft_eq, one_mul]
      exact (pow_pos (by norm_num : (0 : Nat) < 2) _).ne'
    have hdist : Distance self (randomIDInBucket self i) =
        List.replicate (i / 8) 0 ++
          (1 <<< (7 - i % 8)) :: List.replicate (self.length - i / 8 - 1) 0 := by
      unfold Distance randomIDInBucket
      exact zipWith_xor_set self (i / 8) (1 <<< (7 - i % 8)) hk
    have hlz : LeadingZeros (Distance self (randomIDInBucket self i)) = i := by
      unfold LeadingZeros
      rw [hdist, LeadingZerosAux_single _ _ _ (i % 8) hm
        (findFirstBit_single_bit (i % 8) hr) _]
      omega
    unfold BucketIndex
    rw [hlz, if_neg (by omega)]

/-- Witness for `BucketIndex_law`: a concrete 20-byte id; flipping bit
47 yields bucket index 47. -/
theorem BucketIndex_law_witness :
    BucketIndex
        [222, 173, 190, 239, 1, 2, 3, 4, 5, 6, 7, 8, 9, 10, 11, 12, 13, 14, 15, 16]
        (randomIDInBucket
          [222, 173, 190, 239, 1, 2, 3, 4, 5, 6, 7, 8, 9, 10, 11, 12, 13, 14, 15, 16]
          47) = 47 :=
  (BucketIndex_law
      [222, 173, 190, 239, 1, 2, 3, 4, 5, 6, 7, 8, 9, 10, 11, 12, 13, 14, 15, 16]
      (by decide)).2.2 47 (by decide)

/-! ### DHT routing table (RoutingTable: AddNode / RemoveNode)

`time.Now()` is modelled by a `now : Nat` parameter; the network address
is an opaque `Nat`.  Bucket `LastChanged` timestamps do not influence
the claims and are omitted. -/

/-- Kademlia constant `K = 8`: maximum nodes per bucket. -/
def K : Nat := 8

/-- The constant `BucketCount = 160`. -/
def BucketCount : Nat := 160

/-- The `type NodeInfo struct { ID NodeID; Addr *net.UDPAddr; LastSeen time.Time }`. -/
structure NodeInfo where
  ID : List Nat
  Addr : Nat
  LastSeen : Nat
deriving DecidableEq

/-- The `type RoutingTable struct`: self id and 160 buckets, each a list of
nodes in LRU order (least recently seen at the front). -/
structure RoutingTable where
  Self : List Nat
  Buckets : List (List NodeInfo)
deriving DecidableEq

/-- Embeds `func NewRoutingTable(self NodeID) *RoutingTable`. -/
def NewRoutingTable (self : List Nat) : RoutingTable :=
  { Self := self, Buckets := List.replicate BucketCount [] }

/-- Replace bucket `idx` of the table (the in-place mutation
`rt.Buckets[idx] = b` of the Go code). -/
def RoutingTable.setBucket (rt : RoutingTable) (idx : Nat) (b : List NodeInfo) :
    RoutingTable :=
  { rt with Buckets := rt.Buckets.set idx b }

/-- Embeds `func (rt *RoutingTable) AddNode(node *NodeInfo) bool`
(returning the updated table and the Go boolean): reject the self id;
move an existing node to the MRU end with a fresh `LastSeen`; append a
new node if the bucket has room; reject when the bucket is full. -/
def RoutingTable.AddNode (rt : RoutingTable) (node : NodeInfo) (now : Nat) :
    RoutingTable × Bool :=
  if node.ID = rt.Self then (rt, false)
  else
    if (rt.Buckets.getD (BucketIndex rt.Self node.ID) []).any
        (fun n => n.ID == node.ID) then
      (rt.setBucket (BucketIndex rt.Self node.ID)
        ((rt.Buckets.getD (BucketIndex rt.Self node.ID) []).eraseP
           (fun n => n.ID == node.ID) ++ [{ node with LastSeen := now }]),
       true)
    else if (rt.Buckets.getD (BucketIndex rt.Self node.ID) []).length < K then
      (rt.setBucket (BucketIndex rt.Self node.ID)
        ((rt.Buckets.getD (BucketIndex rt.Self node.ID) []) ++
           [{ node with LastSeen := now }]),
       true)
    else (rt, false)

/-- Embeds `func (rt *RoutingTable) RemoveNode(id NodeID)`: drop the
first node with the given id from its bucket (no-op if absent). -/
def RoutingTable.RemoveNode (rt : RoutingTable) (id : List Nat) : RoutingTable :=
  rt.setBucket (BucketIndex rt.Self id)
    ((rt.Buckets.getD (BucketIndex rt.Self id) []).eraseP
       (fun n => n.ID == id))

/-- The routing-table invariant of C6: 160 buckets, each holding at most
`K` nodes, never the self id, and every stored node sits in the bucket
given by `BucketIndex`. -/
def RTInv (rt : RoutingTable) : Prop :=
  rt.Buckets.length = BucketCount ∧
  ∀ i < BucketCount, (rt.Buckets.getD i []).length ≤ K ∧
    ∀ n ∈ rt.Buckets.getD i [], n.ID ≠ rt.Self ∧ BucketIndex rt.Self n.ID = i

/-- The function `BucketIndex` always yields a valid bucket number. -/
lemma BucketIndex_lt (a b : List Nat) : BucketIndex a b < 160 := by
  unfold BucketIndex
  split <;> omega

lemma getD_set_eq_of_lt {α : Type} (l : List α) (i : Nat) (x d : α)
    (h : i < l.length) : (l.set i x).getD i d = x := by
  rw [List.getD_eq_getElem?_getD, List.getElem?_set_self h]; rfl

lemma getD_set_ne {α : Type} (l : List α) (i j : Nat) (x d : α)
    (h : i ≠ j) : (l.set i x).getD j d = l.getD j d := by
  rw [List.getD_eq_getElem?_getD, List.getElem?_set, if_neg h,
    ← List.getD_eq_getElem?_getD]

/-- Invariant preservation when one bucket is rewritten in place. -/
lemma RTInv_set_bucket (rt : RoutingTable) (idx : Nat) (b : List NodeInfo)
    (hinv : RTInv rt) (hidx : idx < BucketCount)
    (hlen : b.length ≤ K)
    (hmem : ∀ n ∈ b, n.ID ≠ rt.Self ∧ BucketIndex rt.Self n.ID = idx) :
    RTInv (rt.setBucket idx b) := by
  unfold RoutingTable.setBucket
  obtain ⟨hbl, hbuckets⟩ := hinv
  refine ⟨by simpa using hbl, ?_⟩
  intro i hi
  rcases eq_or_ne idx i with hii | hii
  · subst hii
    rw [getD_set_eq_of_lt _ _ _ _ (by omega)]
    exact ⟨hlen, hmem⟩
  · rw [getD_set_ne _ _ _ _ _ hii]
    exact hbuckets i hi

/-- A fresh routing table satisfies the invariant. -/
lemma RTInv_new (self : List Nat) : RTInv (NewRoutingTable self) := by
  refine ⟨by simp [NewRoutingTable], ?_⟩
  intro i hi
  have h : (List.replicate BucketCount ([] : List NodeInfo)).getD i [] = [] := by
    rw [List.getD_eq_getElem?_getD, List.getElem?_replicate, if_pos hi]; rfl
  simp [NewRoutingTable, h, K]

/-- C6: `NewRoutingTable` establishes the invariant (160 buckets of at
most 8 nodes, none equal to self, each in its `BucketIndex` bucket);
`AddNode` and `RemoveNode` preserve it; an already-present node is moved
to the MRU end of its bucket; and `AddNode` into a full bucket of other
nodes returns false and leaves the table unchanged. -/
theorem RoutingTable_AddNode_RemoveNode_inv (self : List Nat)
    (rt : RoutingTable) (node : NodeInfo) (id : List Nat) (now : Nat)
    (hinv : RTInv rt) :
    RTInv (NewRoutingTable self) ∧
    RTInv (rt.AddNode node now).1 ∧
    RTInv (rt.RemoveNode id) ∧
    (node.ID ≠ rt.Self →
      ((rt.Buckets.getD (BucketIndex rt.Self node.ID) []).any
          (fun n => n.ID == node.ID) = true →
        rt.AddNode node now =
          (rt.setBucket (BucketIndex rt.Self node.ID)
            ((rt.Buckets.getD (BucketIndex rt.Self node.ID) []).eraseP
               (fun n => n.ID == node.ID) ++ [{ node with LastSeen := now }]),
           true)) ∧
      ((rt.Buckets.getD (BucketIndex rt.Self node.ID) []).any
          (fun n => n.ID == node.ID) = false →
        (rt.Buckets.getD (BucketIndex rt.Self node.ID) []).length = K →
        rt.AddNode node now = (rt, false))) := by
  obtain ⟨hbl, hbuckets⟩ := hinv
  refine ⟨RTInv_new self, ?_, ?_, ?_⟩
  · unfold RoutingTable.AddNode
    split
    · exact ⟨hbl, hbuckets⟩
    · rename_i hne
      split
      · rename_i hany
        apply RTInv_set_bucket _ _ _ ⟨hbl, hbuckets⟩ (BucketIndex_lt _ _)
        · obtain ⟨x, hx, hpx⟩ := List.any_eq_true.mp hany
          rw [List.length_append, List.length_eraseP_of_mem hx hpx,
            List.length_singleton]
          have hle := (hbuckets _ (BucketIndex_lt rt.Self node.ID)).1
          have hpos : 0 < (rt.Buckets.getD (BucketIndex rt.Self node.ID) []).length :=
            List.length_pos.mpr (List.ne_nil_of_mem hx)
          omega
        · intro n hn
          rcases List.mem_append.mp hn with hn | hn
          · exact (hbuckets _ (BucketIndex_lt rt.Self node.ID)).2 n
              (List.mem_of_mem_eraseP hn)
          · have : n = { node with LastSeen := now } := by simpa using hn
            subst this
            exact ⟨hne, rfl⟩
      · split
        · rename_i hlt
          apply RTInv_set_bucket _ _ _ ⟨hbl, hbuckets⟩ (BucketIndex_lt _ _)
          · rw [List.length_append, List.length_singleton]
            omega
          · intro n hn
            rcases List.mem_append.mp hn with hn | hn
            · exact (hbuckets _ (BucketIndex_lt rt.Self node.ID)).2 n hn
            · have : n = { node with LastSeen := now } := by simpa using hn
              subst this
              exact ⟨hne, rfl⟩
        · exact ⟨hbl, hbuckets⟩
  · unfold RoutingTable.RemoveNode
    apply RTInv_set_bucket _ _ _ ⟨hbl, hbuckets⟩ (BucketIndex_lt _ _)
    · exact le_trans (List.length_eraseP_le _)
        ((hbuckets _ (BucketIndex_lt rt.Self id)).1)
    · intro n hn
      exact (hbuckets _ (BucketIndex_lt rt.Self id)).2 n
        (List.mem_of_mem_eraseP hn)
  · intro hne
    constructor
    · intro hany
      unfold RoutingTable.AddNode
      rw [if_neg hne, if_pos hany]
    · intro hany hfull
      unfold RoutingTable.AddNode
      rw [if_neg hne, if_neg (by rw [hany]; exact Bool.false_ne_true),
        if_neg (by omega)]

/-- Witness for `RoutingTable_AddNode_RemoveNode_inv`: a fresh table for
self = 20 zero bytes, adding and then removing the node with id
`10 :: 19 zero bytes`. -/
theorem RoutingTable_AddNode_RemoveNode_inv_witness :
    RTInv ((NewRoutingTable (List.replicate 20 0)).AddNode
      { ID := 10 :: List.replicate 19 0, Addr := 0, LastSeen := 0 } 5).1 :=
  (RoutingTable_AddNode_RemoveNode_inv (List.replicate 20 0)
      (NewRoutingTable (List.replicate 20 0))
      { ID := 10 :: List.replicate 19 0, Addr := 0, LastSeen := 0 }
      [] 5 (RTInv_new (List.replicate 20 0))).2.1

/-! ### KRPC bencode codec (dht: `EncodePing`, `encodeBencodeTo`,
`DecodeMessage`, `decodeBencodeValue`)

Byte strings are `List Nat`.  The Go `any` values handled by the codec
(string / int / []any / map[string]any) become the inductive `BVal`; a
Go map is an association list with unique keys (`assocSet` reproduces
map-assignment semantics).  The decoder's `bufio.Reader` becomes the
list of unread bytes, with explicit fuel for the dict/list loops: every
two nested calls consume at least one input byte, so `2*length + 2`
fuel never runs out. -/

/-- A bencode value (`any` in the Go codec). -/
inductive BVal where
  | bstr (s : List Nat)
  | bint (n : Int)
  | blist (l : List BVal)
  | bdict (d : List (List Nat × BVal))

/-- ASCII decimal digits of `n` prepended to `acc`; fuel-structural
rendering of the digit loop inside Go's `fmt` `%d` verb (fuel `n`
suffices: a number has at most `n` digits). -/
def natDigitsAux : Nat → Nat → List Nat → List Nat
  | 0, _, acc => acc
  | fuel + 1, n, acc =>
    if n = 0 then acc else natDigitsAux fuel (n / 10) ((48 + n % 10) :: acc)

/-- ASCII decimal rendering of a natural (`fmt` `%d`). -/
def writeDecimal (n : Nat) : List Nat :=
  if n = 0 then [48] else natDigitsAux n n []

/-- ASCII decimal rendering of an integer (`fmt` `%d`). -/
def intAscii (n : Int) : List Nat :=
  if n < 0 then 45 :: writeDecimal n.natAbs else writeDecimal n.toNat

/-- Go string `<`: bytewise lexicographic order. -/
def bytesLt : List Nat → List Nat → Bool
  | [], [] => false
  | [], _ :: _ => true
  | _ :: _, [] => false
  | a :: as, b :: bs => if a < b then true else if b < a then false else bytesLt as bs

/-- Insert one dict entry into a key-sorted list (`sortStringSlice` is
an in-place insertion sort over the key array; on distinct keys both
produce the unique ascending arrangement). -/
def insertEntry (e : List Nat × List Nat) :
    List (List Nat × List Nat) → List (List Nat × List Nat)
  | [] => [e]
  | f :: fs => if bytesLt e.1 f.1 then e :: f :: fs else f :: insertEntry e fs

/-- Key-sort the (key, encoded-value) pairs of a dict. -/
def sortEntries : List (List Nat × List Nat) → List (List Nat × List Nat)
  | [] => []
  | e :: es => insertEntry e (sortEntries es)

/-- Emit `<len>:<key><encoded value>` for each sorted entry. -/
def flattenDictEntries : List (List Nat × List Nat) → List Nat
  | [] => []
  | (k, ev) :: es => writeDecimal k.length ++ (58 :: k) ++ ev ++ flattenDictEntries es

mutual
/-- Embeds `func encodeBencodeTo(buf *bytes.Buffer, v any)`: strings as
`<len>:<bytes>`, ints as `i<dec>e`, lists as `l...e`, dicts as `d...e`
with keys sorted bytewise ascending.  (Go sorts the key list and then
encodes each value; encoding every entry first and then sorting is the
same bytes, since encoding is pure and map keys are distinct.) -/
def encodeBencode : BVal → List Nat
  | .bstr s => writeDecimal s.length ++ (58 :: s)
  | .bint n => 105 :: (intAscii n ++ [101])
  | .blist l => 108 :: (encodeBList l ++ [101])
  | .bdict d => 100 :: (flattenDictEntries (sortEntries (encodeBDict d)) ++ [101])

/-- Encode the items of a bencode list in order. -/
def encodeBList : List BVal → List Nat
  | [] => []
  | v :: vs => encodeBencode v ++ encodeBList vs

/-- Encode each dict value, keeping its key. -/
def encodeBDict : List (List Nat × BVal) → List (List Nat × List Nat)
  | [] => []
  | (k, v) :: es => (k, encodeBencode v) :: encodeBDict es
end

/-- Embeds `func EncodePing(txID string, nodeID NodeID) []byte`: the
message `{t: txID, y: "q", q: "ping", a: {id: nodeID}}`. -/
def EncodePing (txID nodeID : List Nat) : List Nat :=
  encodeBencode (.bdict
    [([116], .bstr txID),
     ([121], .bstr [113]),
     ([113], .bstr [112, 105, 110, 103]),
     ([97], .bdict [([105, 100], .bstr nodeID)])])

/-- Go map assignment `d[k] = v` on an association list. -/
def assocSet (d : List (List Nat × BVal)) (k : List Nat) (v : BVal) :
    List (List Nat × BVal) :=
  if d.any (fun e => e.1 == k) then
    d.map (fun e => if e.1 == k then (k, v) else e)
  else d ++ [(k, v)]

/-- Go map lookup `d[k]` on an association list. -/
def assocLookup (d : List (List Nat × BVal)) (k : List Nat) : Option BVal :=
  match d with
  | [] => none
  | (k2, v) :: es => if k2 == k then some v else assocLookup es k

/-- Go `bufio.ReadString(delim)` followed by stripping the delimiter:
bytes before the first `delim`, and the bytes after it; `none` when the
delimiter never occurs (the Go call returns an error). -/
def readStringUntil (delim : Nat) : List Nat → Option (List Nat × List Nat)
  | [] => none
  | b :: rest =>
    if b = delim then some ([], rest)
    else
      match readStringUntil delim rest with
      | none => none
      | some (pre, post) => some (b :: pre, post)

/-- Go `fmt.Sscanf(s, "%d", &n)`: parse an optional minus sign and leading
digits; on failure the Go variable keeps its zero value. -/
def sscanfInt (s : List Nat) : Int :=
  if s.headD 0 = 45 then
    -(List.foldl (fun acc d => acc * 10 + (d - 48)) 0
        ((s.drop 1).takeWhile (fun b => 48 ≤ b && b ≤ 57)) : Nat)
  else
    (List.foldl (fun acc d => acc * 10 + (d - 48)) 0
        (s.takeWhile (fun b => 48 ≤ b && b ≤ 57)) : Nat)

/-- Go `reader.Read(buf)` with `buf := make([]byte, length)`, whose byte
count the Go string case ignores: the available bytes (all input is
buffered) padded with the buffer's zero bytes; EOF only when the stream
is empty and bytes were requested. -/
def goRead (length : Nat) (s : List Nat) : Except String (List Nat × List Nat) :=
  if length > 0 ∧ s = [] then .error "EOF"
  else .ok (s.take length ++ List.replicate (length - s.length) 0, s.drop length)

mutual
/-- Embeds `func decodeBencodeValue(reader *bufio.Reader) (any, error)`
(first argument is fuel; see the section comment). -/
def decodeBencodeValue : Nat → List Nat → Except String (BVal × List Nat)
  | 0, _ => .error "out of fuel"
  | _ + 1, [] => .error "EOF"
  | fuel + 1, b :: rest =>
    if b = 100 then decodeDictLoop fuel [] rest
    else if b = 108 then decodeListLoop fuel [] rest
    else if b = 105 then
      match readStringUntil 101 rest with
      | none => .error "EOF"
      | some (numStr, rest2) => .ok (.bint (sscanfInt numStr), rest2)
    else
      match readStringUntil 58 (b :: rest) with
      | none => .error "EOF"
      | some (lenStr, rest2) =>
        match goRead (sscanfInt lenStr).toNat rest2 with
        | .error e => .error e
        | .ok (buf, rest3) => .ok (.bstr buf, rest3)

/-- The `case 'd'` loop of `decodeBencodeValue`: peek for `e`, else
read a key (must be a string) and a value and assign into the map. -/
def decodeDictLoop : Nat → List (List Nat × BVal) → List Nat →
    Except String (BVal × List Nat)
  | 0, _, _ => .error "out of fuel"
  | _ + 1, _, [] => .error "EOF"
  | fuel + 1, acc, b :: rest =>
    if b = 101 then .ok (.bdict acc, rest)
    else
      match decodeBencodeValue fuel (b :: rest) with
      | .error e => .error e
      | .ok (.bstr keyStr, rest2) =>
        match decodeBencodeValue fuel rest2 with
        | .error e => .error e
        | .ok (val, rest3) => decodeDictLoop fuel (assocSet acc keyStr val) rest3
      | .ok _ => .error "dict key must be string"

/-- The `case 'l'` loop of `decodeBencodeValue`. -/
def decodeListLoop : Nat → List BVal → List Nat →
    Except String (BVal × List Nat)
  | 0, _, _ => .error "out of fuel"
  | _ + 1, _, [] => .error "EOF"
  | fuel + 1, acc, b :: rest =>
    if b = 101 then .ok (.blist acc, rest)
    else
      match decodeBencodeValue fuel (b :: rest) with
      | .error e => .error e
      | .ok (val, rest2) => decodeListLoop fuel (acc ++ [val]) rest2
end

/-- Embeds `func decodeBencode(data []byte) (any, error)`. -/
def decodeBencode (data : List Nat) : Except String (BVal × List Nat) :=
  decodeBencodeValue (2 * data.length + 2) data

/-- The KRPC `Message` struct (named apart from the peer-wire
`Message`); `Args`/`Response` are the string-valued entries, `Error`
the raw list. -/
structure KMessage where
  TransactionID : List Nat
  type : List Nat
  Query : List Nat
  Args : List (List Nat × List Nat)
  Response : List (List Nat × List Nat)
  Error : List BVal

/-- Keep only the string-valued entries of a decoded dict (the
`for k, v := range a { if s, ok := v.(string); ok { ... } }` loops). -/
def stringEntries : List (List Nat × BVal) → List (List Nat × List Nat)
  | [] => []
  | (k, .bstr s) :: es => (k, s) :: stringEntries es
  | _ :: es => stringEntries es

/-- Embeds `func DecodeMessage(data []byte) (*Message, error)`. -/
def DecodeMessage (data : List Nat) : Except String KMessage :=
  match decodeBencode data with
  | .error e => .error e
  | .ok (.bdict dict, _) =>
    match assocLookup dict [116] with
    | some (.bstr t) =>
      match assocLookup dict [121] with
      | some (.bstr y) =>
        if y = [113] then
          .ok { TransactionID := t, type := y,
                Query := (match assocLookup dict [113] with
                          | some (.bstr q) => q
                          | _ => []),
                Args := (match assocLookup dict [97] with
                         | some (.bdict a) => stringEntries a
                         | _ => []),
                Response := [], Error := [] }
        else if y = [114] then
          .ok { TransactionID := t, type := y, Query := [],
                Args := [],
                Response := (match assocLookup dict [114] with
                             | some (.bdict r) => stringEntries r
                             | _ => []),
                Error := [] }
        else if y = [101] then
          .ok { TransactionID := t, type := y, Query := [], Args := [],
                Response := [],
                Error := (match assocLookup dict [101] with
                          | some (.blist e) => e
                          | _ => []) }
        else
          .ok { TransactionID := t, type := y, Query := [], Args := [],
                Response := [], Error := [] }
      | _ => .error "missing message type"
    | _ => .error "missing transaction ID"
  | .ok _ => .error "KRPC message must be a dictionary"

/-- C8: `EncodePing` with transaction id "aa" and node id
"abcdefghij0123456789" produces exactly
`d1:ad2:id20:abcdefghij0123456789e1:q4:ping1:t2:aa1:y1:qe`, and
decoding those bytes yields a query message with the same transaction
id, type "q", method "ping" and args id "abcdefghij0123456789". -/
theorem EncodePing_DecodeMessage_roundtrip :
    EncodePing [97, 97]
        [97, 98, 99, 100, 101, 102, 103, 104, 105, 106,
         48, 49, 50, 51, 52, 53, 54, 55, 56, 57] =
      [100, 49, 58, 97, 100, 50, 58, 105, 100, 50, 48, 58,
       97, 98, 99, 100, 101, 102, 103, 104, 105, 106,
       48, 49, 50, 51, 52, 53, 54, 55, 56, 57, 101,
       49, 58, 113, 52, 58, 112, 105, 110, 103,
       49, 58, 116, 50, 58, 97, 97, 49, 58, 121, 49, 58, 113, 101] ∧
    (DecodeMessage
        [100, 49, 58, 97, 100, 50, 58, 105, 100, 50, 48, 58,
         97, 98, 99, 100, 101, 102, 103, 104, 105, 106,
         48, 49, 50, 51, 52, 53, 54, 55, 56, 57, 101,
         49, 58, 113, 52, 58, 112, 105, 110, 103,
         49, 58, 116, 50, 58, 97, 97, 49, 58, 121, 49, 58, 113, 101]).map
      (fun m => (m.TransactionID, m.type, m.Query, m.Args)) =
    .ok ([97, 97], [113], [112, 105, 110, 103],
         [([105, 100],
           [97, 98, 99, 100, 101, 102, 103, 104, 105, 106,
            48, 49, 50, 51, 52, 53, 54, 55, 56, 57])]) := by
  constructor
  · rfl
  · rfl

/-! ### Piece queue (torrent PieceQueue)

State: per-piece availability, buckets of pending pieces keyed by
availability (Go `map[int]bool` sets become `Finset Nat`), the
in-progress set and the completed set.  The `pieces` slice is
represented by `numPieces`; `GetPiece` returns `pq.pieces[idx]`, i.e.
the piece with index `idx`, so results are modelled by the index.
Go map iteration order is unspecified, so `GetPiece` is embedded as the
relation `GetPieceRel` describing exactly the outcomes realizable by
some iteration order; all other operations are deterministic.
A Go write `pq.buckets[a][i] = true` with `a` out of range would panic;
`insertIntoBucket` models it as a no-op, and the invariant below shows
the index is in range in every reachable state, so the branch is dead. -/

structure PieceQueue where
  numPieces : Nat
  availability : List Nat
  buckets : List (Finset Nat)
  inProgress : Finset Nat
  completed : Finset Nat
deriving DecidableEq

/-- The pending set: union of all buckets. -/
def pendOf (bs : List (Finset Nat)) : Finset Nat := bs.foldr (· ∪ ·) ∅

/-- The pending set of a queue. -/
def pendingSet (pq : PieceQueue) : Finset Nat := pendOf pq.buckets

/-- Embeds `func NewPieceQueue(pieces []*Piece, completedBitfield bitfield)`:
completed pieces (per the bitfield) go to the completed set, the rest to
bucket 0. -/
def NewPieceQueue (n : Nat) (completedBitfield : List Nat) : PieceQueue :=
  { numPieces := n
    availability := List.replicate n 0
    buckets := [(Finset.range n).filter (fun i => ¬ bitfield.get completedBitfield i)]
    inProgress := ∅
    completed := (Finset.range n).filter (fun i => bitfield.get completedBitfield i) }

/-- Embeds `func (pq *PieceQueue) ensureBucket(avail int)`: append empty
buckets until `len(buckets) > avail`. -/
def ensureBucket (bs : List (Finset Nat)) (avail : Nat) : List (Finset Nat) :=
  bs ++ List.replicate (avail + 1 - bs.length) ∅

/-- Go `delete(pq.buckets[a], i)` under the guard `a < len(buckets)`. -/
def deleteFromBucket (bs : List (Finset Nat)) (a i : Nat) : List (Finset Nat) :=
  if a < bs.length then bs.set a ((bs.getD a ∅).erase i) else bs

/-- Go `pq.buckets[a][i] = true` (see the section comment on the
out-of-range case). -/
def insertIntoBucket (bs : List (Finset Nat)) (a i : Nat) : List (Finset Nat) :=
  bs.set a (insert i (bs.getD a ∅))

/-- The bucket move shared by `RegisterPeer` and `UpdateAvailability`:
delete from the old bucket, ensure the next bucket exists, insert
there. -/
def bumpPending (bs : List (Finset Nat)) (oldAvail i : Nat) : List (Finset Nat) :=
  insertIntoBucket (ensureBucket (deleteFromBucket bs oldAvail i) (oldAvail + 1))
    (oldAvail + 1) i

/-- One iteration of the `RegisterPeer` loop at piece `i` (the Go code
increments availability whenever the peer has the bit, and additionally
moves the piece up one bucket when it is pending). -/
def registerPeerStep (bf : List Nat) (pq : PieceQueue) (i : Nat) : PieceQueue :=
  if bitfield.get bf i then
    if i ∉ pq.completed ∧ i ∉ pq.inProgress then
      { pq with
        availability := pq.availability.set i (pq.availability.getD i 0 + 1),
        buckets := bumpPending pq.buckets (pq.availability.getD i 0) i }
    else
      { pq with
        availability := pq.availability.set i (pq.availability.getD i 0 + 1) }
  else pq

/-- Embeds `func (pq *PieceQueue) RegisterPeer(bf bitfield)`. -/
def RegisterPeer (pq : PieceQueue) (bf : List Nat) : PieceQueue :=
  (List.range pq.numPieces).foldl (registerPeerStep bf) pq

/-- One iteration of the `UnregisterPeer` loop at piece `i` (guarded by
`availability[i] > 0`; a pending piece moves down one bucket with no
`ensureBucket` call — the Go index `oldAvail-1` is in range in every
reachable state). -/
def unregisterPeerStep (bf : List Nat) (pq : PieceQueue) (i : Nat) : PieceQueue :=
  if bitfield.get bf i ∧ pq.availability.getD i 0 > 0 then
    if i ∉ pq.completed ∧ i ∉ pq.inProgress then
      { pq with
        availability := pq.availability.set i (pq.availability.getD i 0 - 1),
        buckets := insertIntoBucket
          (deleteFromBucket pq.buckets (pq.availability.getD i 0) i)
          (pq.availability.getD i 0 - 1) i }
    else
      { pq with
        availability := pq.availability.set i (pq.availability.getD i 0 - 1) }
  else pq

/-- Embeds `func (pq *PieceQueue) UnregisterPeer(bf bitfield)`. -/
def UnregisterPeer (pq : PieceQueue) (bf : List Nat) : PieceQueue :=
  (List.range pq.numPieces).foldl (unregisterPeerStep bf) pq

/-- Embeds `func (pq *PieceQueue) UpdateAvailability(index int)` (a
`have` message): bounds-checked single-piece register. -/
def UpdateAvailability (pq : PieceQueue) (index : Nat) : PieceQueue :=
  if index < pq.availability.length then
    if index ∉ pq.completed ∧ index ∉ pq.inProgress then
      { pq with
        availability := pq.availability.set index (pq.availability.getD index 0 + 1),
        buckets := bumpPending pq.buckets (pq.availability.getD index 0) index }
    else
      { pq with
        availability := pq.availability.set index (pq.availability.getD index 0 + 1) }
  else pq

/-- The state change of `GetPiece` when it returns piece `p` found in
bucket `a`: remove `p` from the bucket, mark it in progress. -/
def takePiece (pq : PieceQueue) (a p : Nat) : PieceQueue :=
  { pq with
    buckets := pq.buckets.set a ((pq.buckets.getD a ∅).erase p),
    inProgress := insert p pq.inProgress }

/-- Embeds `func (pq *PieceQueue) GetPiece(peerBitfield bitfield)` as a
relation over the unspecified map iteration order: `some (p, pq')` is a
possible outcome iff `p` lies in the first bucket (scanning availability
0 upward) holding any piece the peer has, and `pq'` moves `p` to the
in-progress set; `none` iff no pending piece matches (state unchanged). -/
def GetPieceRel (pq : PieceQueue) (bf : List Nat) :
    Option (Nat × PieceQueue) → Prop
  | none => ∀ a < pq.buckets.length, ∀ i ∈ pq.buckets.getD a ∅, ¬ bitfield.get bf i
  | some (p, pq') =>
    ∃ a, a < pq.buckets.length ∧ p ∈ pq.buckets.getD a ∅ ∧
      bitfield.get bf p = true ∧
      (∀ a2 < a, ∀ i ∈ pq.buckets.getD a2 ∅, ¬ bitfield.get bf i) ∧
      pq' = takePiece pq a p

/-- Embeds `func (pq *PieceQueue) Complete(index int)`. -/
def Complete (pq : PieceQueue) (index : Nat) : PieceQueue :=
  { pq with
    inProgress := pq.inProgress.erase index,
    completed := insert index pq.completed }

/-- Embeds `func (pq *PieceQueue) Return(index int)`: only an
in-progress piece is put back, into the bucket for its current
availability. -/
def Return (pq : PieceQueue) (index : Nat) : PieceQueue :=
  if index ∈ pq.inProgress then
    { pq with
      inProgress := pq.inProgress.erase index,
      buckets := insertIntoBucket
        (ensureBucket pq.buckets (pq.availability.getD index 0))
        (pq.availability.getD index 0) index }
  else pq

/-- States reachable by the queue API from `NewPieceQueue`; `Complete`
is applied to in-progress pieces (the coordinator completes only pieces
handed out by `GetPiece`). -/
inductive Reach : PieceQueue → Prop
  | init (n : Nat) (bf : List Nat) : Reach (NewPieceQueue n bf)
  | register (pq : PieceQueue) (bf : List Nat) :
      Reach pq → Reach (RegisterPeer pq bf)
  | unregister (pq : PieceQueue) (bf : List Nat) :
      Reach pq → Reach (UnregisterPeer pq bf)
  | update (pq : PieceQueue) (i : Nat) :
      Reach pq → Reach (UpdateAvailability pq i)
  | getPiece (pq : PieceQueue) (bf : List Nat) (p : Nat) (pq' : PieceQueue) :
      Reach pq → GetPieceRel pq bf (some (p, pq')) → Reach pq'
  | complete (pq : PieceQueue) (i : Nat) (hi : i ∈ pq.inProgress) :
      Reach pq → Reach (Complete pq i)
  | ret (pq : PieceQueue) (i : Nat) : Reach pq → Reach (Return pq i)

/-- The piece-queue invariant: availability entries exist for every
piece, at least one bucket, every pending piece sits in the bucket of
its availability, and pending / in-progress / completed partition the
piece indices. -/
def PQInv (pq : PieceQueue) : Prop :=
  pq.availability.length = pq.numPieces ∧
  1 ≤ pq.buckets.length ∧
  (∀ k, k < pq.buckets.length →
    ∀ i ∈ pq.buckets.getD k ∅, pq.availability.getD i 0 = k) ∧
  pendingSet pq ∪ pq.inProgress ∪ pq.completed = Finset.range pq.numPieces ∧
  pendingSet pq ∩ pq.inProgress = ∅ ∧
  pendingSet pq ∩ pq.completed = ∅ ∧
  pq.inProgress ∩ pq.completed = ∅

example : (NewPieceQueue 3 [0b10000000]).completed = {0} := by decide
example : pendingSet (NewPieceQueue 3 [0b10000000]) = {1, 2} := by decide
example : pendingSet (RegisterPeer (NewPieceQueue 3 []) [0b10100000]) = {0, 1, 2} := by decide
example : (RegisterPeer (NewPieceQueue 3 []) [0b10100000]).buckets = [{1}, {0, 2}] := by decide

lemma mem_pendOf (bs : List (Finset Nat)) (i : Nat) :
    i ∈ pendOf bs ↔ ∃ k, k < bs.length ∧ i ∈ bs.getD k ∅ := by
  induction bs with
  | nil => simp [pendOf]
  | cons b t ih =>
    show i ∈ b ∪ pendOf t ↔ _
    rw [Finset.mem_union, ih]
    constructor
    · rintro (hb | ⟨k, hk, hik⟩)
      · exact ⟨0, by simp, by simpa using hb⟩
      · exact ⟨k + 1, by simpa using hk, by simpa using hik⟩
    · rintro ⟨k, hk, hik⟩
      cases k with
      | zero => exact Or.inl (by simpa using hik)
      | succ k => exact Or.inr ⟨k, by simpa using hk, by simpa using hik⟩

lemma pendOf_replicate_empty (m : Nat) :
    pendOf (List.replicate m (∅ : Finset Nat)) = ∅ := by
  induction m with
  | zero => rfl
  | succ m ih =>
    rw [List.replicate_succ]
    show ∅ ∪ pendOf (List.replicate m ∅) = ∅
    rw [ih]; simp

lemma pendOf_ensureBucket (bs : List (Finset Nat)) (a : Nat) :
    pendOf (ensureBucket bs a) = pendOf bs := by
  unfold ensureBucket pendOf
  rw [List.foldr_append]
  rw [show (List.replicate (a + 1 - bs.length) (∅ : Finset Nat)).foldr (· ∪ ·) ∅ = ∅
      from pendOf_replicate_empty _]

lemma length_ensureBucket (bs : List (Finset Nat)) (a : Nat) :
    (ensureBucket bs a).length = max bs.length (a + 1) := by
  unfold ensureBucket
  rw [List.length_append, List.length_replicate]
  omega

lemma getD_empty_replicate (m j : Nat) :
    (List.replicate m (∅ : Finset Nat)).getD j ∅ = ∅ := by
  induction m generalizing j with
  | zero => rfl
  | succ m ih =>
    rw [List.replicate_succ]
    cases j with
    | zero => rfl
    | succ j => rw [List.getD_cons_succ]; exact ih j

lemma getD_ensureBucket_lt (bs : List (Finset Nat)) (a k : Nat)
    (hk : k < bs.length) : (ensureBucket bs a).getD k ∅ = bs.getD k ∅ :=
  List.getD_append _ _ _ _ hk

lemma getD_ensureBucket_ge (bs : List (Finset Nat)) (a k : Nat)
    (hk : bs.length ≤ k) : (ensureBucket bs a).getD k ∅ = ∅ := by
  unfold ensureBucket
  rw [List.getD_append_right _ _ _ _ hk, getD_empty_replicate]

lemma length_deleteFromBucket (bs : List (Finset Nat)) (a x : Nat) :
    (deleteFromBucket bs a x).length = bs.length := by
  unfold deleteFromBucket
  split
  · exact List.length_set ..
  · rfl

lemma length_insertIntoBucket (bs : List (Finset Nat)) (a x : Nat) :
    (insertIntoBucket bs a x).length = bs.length :=
  List.length_set ..

lemma getD_deleteFromBucket_ne (bs : List (Finset Nat)) (a x k : Nat)
    (hk : k ≠ a) : (deleteFromBucket bs a x).getD k ∅ = bs.getD k ∅ := by
  unfold deleteFromBucket
  split
  · exact getD_set_ne _ _ _ _ _ (fun h => hk h.symm)
  · rfl

lemma getD_deleteFromBucket_self (bs : List (Finset Nat)) (a x : Nat)
    (ha : a < bs.length) :
    (deleteFromBucket bs a x).getD a ∅ = (bs.getD a ∅).erase x := by
  unfold deleteFromBucket
  rw [if_pos ha]
  exact getD_set_eq_of_lt _ _ _ _ ha

lemma mem_pendOf_set (bs : List (Finset Nat)) (a : Nat) (x : Finset Nat)
    (i : Nat) (ha : a < bs.length) :
    i ∈ pendOf (bs.set a x) ↔
      i ∈ x ∨ ∃ k, k < bs.length ∧ k ≠ a ∧ i ∈ bs.getD k ∅ := by
  rw [mem_pendOf, List.length_set]
  constructor
  · rintro ⟨k, hk, hik⟩
    rcases eq_or_ne k a with rfl | hne
    · rw [getD_set_eq_of_lt _ _ _ _ ha] at hik
      exact Or.inl hik
    · rw [getD_set_ne _ _ _ _ _ (fun h => hne h.symm)] at hik
      exact Or.inr ⟨k, hk, hne, hik⟩
  · rintro (hx | ⟨k, hk, hne, hik⟩)
    · exact ⟨a, ha, by rwa [getD_set_eq_of_lt _ _ _ _ ha]⟩
    · exact ⟨k, hk, by rwa [getD_set_ne _ _ _ _ _ (fun h => hne h.symm)]⟩

lemma pendOf_deleteFromBucket_subset (bs : List (Finset Nat)) (a x : Nat) :
    pendOf (deleteFromBucket bs a x) ⊆ pendOf bs := by
  intro i hi
  unfold deleteFromBucket at hi
  split at hi
  · rename_i ha
    rcases (mem_pendOf_set _ _ _ _ ha).mp hi with hx | ⟨k, hk, _, hik⟩
    · exact (mem_pendOf _ _).mpr ⟨a, ha, Finset.mem_of_mem_erase hx⟩
    · exact (mem_pendOf _ _).mpr ⟨k, hk, hik⟩
  · exact hi

lemma mem_pendOf_deleteFromBucket (bs : List (Finset Nat)) (a x i : Nat)
    (hne : i ≠ x) (hi : i ∈ pendOf bs) :
    i ∈ pendOf (deleteFromBucket bs a x) := by
  obtain ⟨k, hk, hik⟩ := (mem_pendOf _ _).mp hi
  unfold deleteFromBucket
  split
  · rename_i ha
    rcases eq_or_ne k a with rfl | hka
    · exact (mem_pendOf_set _ _ _ _ ha).mpr
        (Or.inl (Finset.mem_erase.mpr ⟨hne, hik⟩))
    · exact (mem_pendOf_set _ _ _ _ ha).mpr (Or.inr ⟨k, hk, hka, hik⟩)
  · exact hi

lemma pendOf_insertIntoBucket (bs : List (Finset Nat)) (a x : Nat)
    (ha : a < bs.length) :
    pendOf (insertIntoBucket bs a x) = insert x (pendOf bs) := by
  ext i
  unfold insertIntoBucket
  rw [mem_pendOf_set _ _ _ _ ha, Finset.mem_insert, Finset.mem_insert,
    mem_pendOf]
  constructor
  · rintro ((rfl | hib) | ⟨k, hk, _, hik⟩)
    · exact Or.inl rfl
    · exact Or.inr ⟨a, ha, hib⟩
    · exact Or.inr ⟨k, hk, hik⟩
  · rintro (rfl | ⟨k, hk, hik⟩)
    · exact Or.inl (Or.inl rfl)
    · rcases eq_or_ne k a with rfl | hka
      · exact Or.inl (Or.inr hik)
      · exact Or.inr ⟨k, hk, hka, hik⟩

lemma pendOf_singleton (b : Finset Nat) : pendOf [b] = b := by
  show b ∪ ∅ = b
  exact Finset.union_empty b

lemma PQInv_new (n : Nat) (bf : List Nat) : PQInv (NewPieceQueue n bf) := by
  have hpend : pendingSet (NewPieceQueue n bf) =
      (Finset.range n).filter (fun i => ¬ bitfield.get bf i) := pendOf_singleton _
  have hcomp : (NewPieceQueue n bf).completed =
      (Finset.range n).filter (fun i => bitfield.get bf i) := rfl
  have hprog : (NewPieceQueue n bf).inProgress = ∅ := rfl
  have hnum : (NewPieceQueue n bf).numPieces = n := rfl
  refine ⟨by simp [NewPieceQueue], by simp [NewPieceQueue], ?_, ?_, ?_, ?_, ?_⟩
  · intro k hk i hik
    have hlen1 : (NewPieceQueue n bf).buckets.length = 1 := by simp [NewPieceQueue]
    have hk0 : k = 0 := by omega
    subst hk0
    show (List.replicate n 0).getD i 0 = 0
    rcases lt_or_ge i n with hin | hin
    · rw [List.getD_eq_getElem?_getD, List.getElem?_replicate, if_pos hin]
      rfl
    · exact List.getD_eq_default _ _ (by simpa using hin)
  · rw [hpend, hcomp, hprog, hnum]
    ext i
    simp only [Finset.mem_union, Finset.mem_filter, Finset.mem_range,
      Finset.not_mem_empty, or_false]
    tauto
  · rw [hpend, hprog]
    simp
  · rw [hpend, hcomp]
    ext i
    simp only [Finset.mem_inter, Finset.mem_filter, Finset.not_mem_empty,
      iff_false]
    rintro ⟨⟨_, hno⟩, _, hyes⟩
    exact hno hyes
  · rw [hprog]
    simp

lemma PQInv_avail_set (pq : PieceQueue) (x v : Nat) (hinv : PQInv pq)
    (hnp : x ∉ pendingSet pq) :
    PQInv { pq with availability := pq.availability.set x v } := by
  obtain ⟨hAL, hB1, hMatch, hUnion, hPI, hPC, hIC⟩ := hinv
  refine ⟨by simpa using hAL, hB1, ?_, hUnion, hPI, hPC, hIC⟩
  intro k hk i hik
  have hip : i ∈ pendingSet pq := (mem_pendOf _ _).mpr ⟨k, hk, hik⟩
  have hne : i ≠ x := fun h => hnp (h ▸ hip)
  show (pq.availability.set x v).getD i 0 = k
  rw [getD_set_ne _ _ _ _ _ (fun h => hne h.symm)]
  exact hMatch k hk i hik

lemma PQInv_move (pq : PieceQueue) (x t : Nat) (E : List (Finset Nat))
    (hinv : PQInv pq) (hx : x < pq.numPieces)
    (hnc : x ∉ pq.completed) (hni : x ∉ pq.inProgress)
    (hElen : pq.buckets.length ≤ E.length)
    (hE_lt : ∀ k, k < pq.buckets.length →
      E.getD k ∅ =
        (deleteFromBucket pq.buckets (pq.availability.getD x 0) x).getD k ∅)
    (hE_ge : ∀ k, pq.buckets.length ≤ k → E.getD k ∅ = ∅)
    (ht0 : t < E.length ∨ t ≤ pq.availability.getD x 0) :
    PQInv { pq with
      availability := pq.availability.set x t,
      buckets := insertIntoBucket E t x } := by
  obtain ⟨hAL, hB1, hMatch, hUnion, hPI, hPC, hIC⟩ := hinv
  have hxp : x ∈ pendingSet pq := by
    have hxr : x ∈ pendingSet pq ∪ pq.inProgress ∪ pq.completed := by
      rw [hUnion]; exact Finset.mem_range.mpr hx
    rcases Finset.mem_union.mp hxr with h | h
    · rcases Finset.mem_union.mp h with h | h
      · exact h
      · exact absurd h hni
    · exact absurd h hnc
  have hxuniq : ∀ k, k < pq.buckets.length → x ∈ pq.buckets.getD k ∅ →
      k = pq.availability.getD x 0 := by
    intro k hk hxk
    exact (hMatch k hk x hxk).symm
  have hOlt : pq.availability.getD x 0 < pq.buckets.length := by
    obtain ⟨k, hk, hxk⟩ := (mem_pendOf _ _).mp hxp
    have := hxuniq k hk hxk
    omega
  have ht : t < E.length := by
    rcases ht0 with h | h
    · exact h
    · omega
  have pendE : pendOf E =
      pendOf (deleteFromBucket pq.buckets (pq.availability.getD x 0) x) := by
    ext i
    rw [mem_pendOf, mem_pendOf, length_deleteFromBucket]
    constructor
    · rintro ⟨k, hkE, hik⟩
      rcases lt_or_ge k pq.buckets.length with hkl | hkg
      · exact ⟨k, hkl, by rwa [hE_lt k hkl] at hik⟩
      · rw [hE_ge k hkg] at hik
        exact absurd hik (Finset.not_mem_empty i)
    · rintro ⟨k, hkl, hik⟩
      exact ⟨k, lt_of_lt_of_le hkl hElen, by rwa [hE_lt k hkl]⟩
  have pendFin : pendOf (insertIntoBucket E t x) = pendingSet pq := by
    rw [pendOf_insertIntoBucket _ _ _ ht, pendE]
    ext i
    rw [Finset.mem_insert]
    constructor
    · rintro (rfl | hi)
      · exact hxp
      · exact pendOf_deleteFromBucket_subset _ _ _ hi
    · intro hi
      rcases eq_or_ne i x with rfl | hne
      · exact Or.inl rfl
      · exact Or.inr (mem_pendOf_deleteFromBucket _ _ _ _ hne hi)
  have hxlen : x < pq.availability.length := by omega
  refine ⟨by simpa using hAL, ?_, ?_, ?_, ?_, ?_, hIC⟩
  · show 1 ≤ (insertIntoBucket E t x).length
    rw [length_insertIntoBucket]
    omega
  · intro k hk i hik
    rw [length_insertIntoBucket] at hk
    show (pq.availability.set x t).getD i 0 = k
    unfold insertIntoBucket at hik
    by_cases hkt : k = t
    · rw [hkt] at hik ⊢
      rw [getD_set_eq_of_lt _ _ _ _ ht] at hik
      by_cases hix : i = x
      · rw [hix, getD_set_eq_of_lt _ _ _ _ hxlen]
      · rw [getD_set_ne _ _ _ _ _ (fun h => hix h.symm)]
        rcases Finset.mem_insert.mp hik with h | hik2
        · exact absurd h hix
        · rcases lt_or_ge t pq.buckets.length with hkl | hkg
          · rw [hE_lt t hkl] at hik2
            by_cases hko : t = pq.availability.getD x 0
            · rw [hko, getD_deleteFromBucket_self _ _ _ hOlt] at hik2
              rw [hko]
              exact hMatch _ hOlt i (Finset.mem_erase.mp hik2).2
            · rw [getD_deleteFromBucket_ne _ _ _ _ hko] at hik2
              exact hMatch t hkl i hik2
          · rw [hE_ge t hkg] at hik2
            exact absurd hik2 (Finset.not_mem_empty i)
    · rw [getD_set_ne _ _ _ _ _ (fun h => hkt h.symm)] at hik
      rcases lt_or_ge k pq.buckets.length with hkl | hkg
      · rw [hE_lt k hkl] at hik
        by_cases hko : k = pq.availability.getD x 0
        · rw [hko, getD_deleteFromBucket_self _ _ _ hOlt] at hik
          obtain ⟨hine, hib⟩ := Finset.mem_erase.mp hik
          rw [getD_set_ne _ _ _ _ _ (fun h => hine h.symm)]
          rw [hko]
          exact hMatch _ hOlt i hib
        · rw [getD_deleteFromBucket_ne _ _ _ _ hko] at hik
          have hix : i ≠ x := by
            intro h
            subst h
            exact hko (hxuniq k hkl hik)
          rw [getD_set_ne _ _ _ _ _ (fun h => hix h.symm)]
          exact hMatch k hkl i hik
      · rw [hE_ge k hkg] at hik
        exact absurd hik (Finset.not_mem_empty i)
  · show pendOf (insertIntoBucket E t x) ∪ pq.inProgress ∪ pq.completed = _
    rw [pendFin]
    exact hUnion
  · show pendOf (insertIntoBucket E t x) ∩ pq.inProgress = ∅
    rw [pendFin]
    exact hPI
  · show pendOf (insertIntoBucket E t x) ∩ pq.completed = ∅
    rw [pendFin]
    exact hPC

lemma registerPeerStep_numPieces (bf : List Nat) (pq : PieceQueue) (i : Nat) :
    (registerPeerStep bf pq i).numPieces = pq.numPieces := by
  unfold registerPeerStep
  split
  · split
    · rfl
    · rfl
  · rfl

lemma unregisterPeerStep_numPieces (bf : List Nat) (pq : PieceQueue) (i : Nat) :
    (unregisterPeerStep bf pq i).numPieces = pq.numPieces := by
  unfold unregisterPeerStep
  split
  · split
    · rfl
    · rfl
  · rfl

lemma notPending_of_guard_false (pq : PieceQueue) (i : Nat) (hinv : PQInv pq)
    (hguard : ¬ (i ∉ pq.completed ∧ i ∉ pq.inProgress)) :
    i ∉ pendingSet pq := by
  obtain ⟨_, _, _, _, hPI, hPC, _⟩ := hinv
  have hmem : i ∈ pq.completed ∨ i ∈ pq.inProgress := by
    by_contra hcon
    push_neg at hcon
    exact hguard ⟨hcon.1, hcon.2⟩
  intro hp
  rcases hmem with h | h
  · exact Finset.not_mem_empty i (hPC ▸ Finset.mem_inter.mpr ⟨hp, h⟩)
  · exact Finset.not_mem_empty i (hPI ▸ Finset.mem_inter.mpr ⟨hp, h⟩)

lemma PQInv_registerPeerStep (bf : List Nat) (pq : PieceQueue) (i : Nat)
    (hi : i < pq.numPieces) (hinv : PQInv pq) :
    PQInv (registerPeerStep bf pq i) := by
  unfold registerPeerStep
  split
  · split
    · rename_i hguard
      unfold bumpPending
      exact PQInv_move pq i (pq.availability.getD i 0 + 1)
        (ensureBucket
          (deleteFromBucket pq.buckets (pq.availability.getD i 0) i)
          (pq.availability.getD i 0 + 1))
        hinv hi hguard.1 hguard.2
        (by rw [length_ensureBucket, length_deleteFromBucket]; omega)
        (fun k hk => getD_ensureBucket_lt _ _ _
          (by rw [length_deleteFromBucket]; omega))
        (fun k hk => getD_ensureBucket_ge _ _ _
          (by rw [length_deleteFromBucket]; omega))
        (Or.inl (by rw [length_ensureBucket, length_deleteFromBucket]; omega))
    · rename_i hguard
      exact PQInv_avail_set pq i _ hinv (notPending_of_guard_false pq i hinv hguard)
  · exact hinv

lemma PQInv_unregisterPeerStep (bf : List Nat) (pq : PieceQueue) (i : Nat)
    (hi : i < pq.numPieces) (hinv : PQInv pq) :
    PQInv (unregisterPeerStep bf pq i) := by
  unfold unregisterPeerStep
  split
  · split
    · rename_i hguard
      exact PQInv_move pq i (pq.availability.getD i 0 - 1)
        (deleteFromBucket pq.buckets (pq.availability.getD i 0) i)
        hinv hi hguard.1 hguard.2
        (by rw [length_deleteFromBucket])
        (fun k hk => rfl)
        (fun k hk => List.getD_eq_default _ _
          (by rw [length_deleteFromBucket]; omega))
        (Or.inr (by omega))
    · rename_i hguard
      exact PQInv_avail_set pq i _ hinv (notPending_of_guard_false pq i hinv hguard)
  · exact hinv

lemma PQInv_UpdateAvailability (pq : PieceQueue) (i : Nat) (hinv : PQInv pq) :
    PQInv (UpdateAvailability pq i) := by
  have hAL := hinv.1
  unfold UpdateAvailability
  split
  · rename_i hilen
    have hi : i < pq.numPieces := by omega
    split
    · rename_i hguard
      unfold bumpPending
      exact PQInv_move pq i (pq.availability.getD i 0 + 1)
        (ensureBucket
          (deleteFromBucket pq.buckets (pq.availability.getD i 0) i)
          (pq.availability.getD i 0 + 1))
        hinv hi hguard.1 hguard.2
        (by rw [length_ensureBucket, length_deleteFromBucket]; omega)
        (fun k hk => getD_ensureBucket_lt _ _ _
          (by rw [length_deleteFromBucket]; omega))
        (fun k hk => getD_ensureBucket_ge _ _ _
          (by rw [length_deleteFromBucket]; omega))
        (Or.inl (by rw [length_ensureBucket, length_deleteFromBucket]; omega))
    · rename_i hguard
      exact PQInv_avail_set pq i _ hinv (notPending_of_guard_false pq i hinv hguard)
  · exact hinv

lemma PQInv_foldl (f : PieceQueue → Nat → PieceQueue)
    (hN : ∀ pq i, (f pq i).numPieces = pq.numPieces)
    (hstep : ∀ pq i, i < pq.numPieces → PQInv pq → PQInv (f pq i)) :
    ∀ (l : List Nat) (pq : PieceQueue), (∀ i ∈ l, i < pq.numPieces) →
      PQInv pq → PQInv (l.foldl f pq) := by
  intro l
  induction l with
  | nil => intro pq _ h; exact h
  | cons a tl ih =>
    intro pq hl hinv
    rw [List.foldl_cons]
    apply ih
    · intro i hmem
      rw [hN]
      exact hl i (List.mem_cons_of_mem _ hmem)
    · exact hstep pq a (hl a (List.mem_cons_self _ _)) hinv

lemma PQInv_RegisterPeer (pq : PieceQueue) (bf : List Nat) (hinv : PQInv pq) :
    PQInv (RegisterPeer pq bf) :=
  PQInv_foldl _ (registerPeerStep_numPieces bf) (PQInv_registerPeerStep bf) _ pq
    (fun _ hi => List.mem_range.mp hi) hinv

lemma PQInv_UnregisterPeer (pq : PieceQueue) (bf : List Nat) (hinv : PQInv pq) :
    PQInv (UnregisterPeer pq bf) :=
  PQInv_foldl _ (unregisterPeerStep_numPieces bf) (PQInv_unregisterPeerStep bf) _ pq
    (fun _ hi => List.mem_range.mp hi) hinv

lemma pendingSet_takePiece (pq : PieceQueue) (a p : Nat) (hinv : PQInv pq)
    (ha : a < pq.buckets.length) (hp : p ∈ pq.buckets.getD a ∅) :
    pendingSet (takePiece pq a p) = (pendingSet pq).erase p := by
  obtain ⟨hAL, hB1, hMatch, hUnion, hPI, hPC, hIC⟩ := hinv
  have hpa : pq.availability.getD p 0 = a := hMatch a ha p hp
  ext i
  show i ∈ pendOf (pq.buckets.set a ((pq.buckets.getD a ∅).erase p)) ↔ _
  rw [mem_pendOf_set _ _ _ _ ha]
  constructor
  · rintro (hi | ⟨k, hk, hka, hik⟩)
    · obtain ⟨hne, hib⟩ := Finset.mem_erase.mp hi
      exact Finset.mem_erase.mpr ⟨hne, (mem_pendOf _ _).mpr ⟨a, ha, hib⟩⟩
    · refine Finset.mem_erase.mpr ⟨?_, (mem_pendOf _ _).mpr ⟨k, hk, hik⟩⟩
      intro hip
      rw [hip] at hik
      have hh := hMatch k hk p hik
      rw [hpa] at hh
      exact hka hh.symm
  · intro hmem
    obtain ⟨hne, hip⟩ := Finset.mem_erase.mp hmem
    obtain ⟨k, hk, hik⟩ := (mem_pendOf _ _).mp hip
    rcases eq_or_ne k a with rfl | hka
    · exact Or.inl (Finset.mem_erase.mpr ⟨hne, hik⟩)
    · exact Or.inr ⟨k, hk, hka, hik⟩

lemma PQInv_getPiece (pq : PieceQueue) (bf : List Nat) (p : Nat)
    (pq' : PieceQueue) (hinv : PQInv pq)
    (hrel : GetPieceRel pq bf (some (p, pq'))) : PQInv pq' := by
  obtain ⟨a, ha, hp, hbfp, hlow, rfl⟩ := hrel
  have hpend' := pendingSet_takePiece pq a p hinv ha hp
  obtain ⟨hAL, hB1, hMatch, hUnion, hPI, hPC, hIC⟩ := hinv
  have hPI' := Finset.eq_empty_iff_forall_not_mem.mp hPI
  have hPC' := Finset.eq_empty_iff_forall_not_mem.mp hPC
  have hIC' := Finset.eq_empty_iff_forall_not_mem.mp hIC
  have hpPend : p ∈ pendingSet pq := (mem_pendOf _ _).mpr ⟨a, ha, hp⟩
  have hpa : pq.availability.getD p 0 = a := hMatch a ha p hp
  refine ⟨hAL, ?_, ?_, ?_, ?_, ?_, ?_⟩
  · show 1 ≤ (pq.buckets.set a _).length
    rw [List.length_set]
    exact hB1
  · intro k hk i hik
    show pq.availability.getD i 0 = k
    rw [show (takePiece pq a p).buckets =
        pq.buckets.set a ((pq.buckets.getD a ∅).erase p) from rfl,
      List.length_set] at hk
    rw [show (takePiece pq a p).buckets =
        pq.buckets.set a ((pq.buckets.getD a ∅).erase p) from rfl] at hik
    by_cases hka : k = a
    · rw [hka, getD_set_eq_of_lt _ _ _ _ ha] at hik
      rw [hka]
      exact hMatch a ha i (Finset.mem_erase.mp hik).2
    · rw [getD_set_ne _ _ _ _ _ (fun h => hka h.symm)] at hik
      exact hMatch k hk i hik
  · show pendingSet _ ∪ insert p pq.inProgress ∪ pq.completed =
      Finset.range pq.numPieces
    rw [hpend', ← hUnion]
    ext i
    simp only [Finset.mem_union, Finset.mem_erase, Finset.mem_insert]
    by_cases hip : i = p
    · subst hip
      simp [hpPend]
    · tauto
  · show pendingSet _ ∩ insert p pq.inProgress = ∅
    rw [hpend']
    ext i
    simp only [Finset.mem_inter, Finset.mem_erase, Finset.mem_insert,
      Finset.not_mem_empty, iff_false]
    rintro ⟨⟨hne, hip⟩, rfl | hiP⟩
    · exact hne rfl
    · exact hPI' i (Finset.mem_inter.mpr ⟨hip, hiP⟩)
  · show pendingSet _ ∩ pq.completed = ∅
    rw [hpend']
    ext i
    simp only [Finset.mem_inter, Finset.mem_erase, Finset.not_mem_empty,
      iff_false]
    rintro ⟨⟨_, hip⟩, hic⟩
    exact hPC' i (Finset.mem_inter.mpr ⟨hip, hic⟩)
  · show insert p pq.inProgress ∩ pq.completed = ∅
    ext i
    simp only [Finset.mem_inter, Finset.mem_insert, Finset.not_mem_empty,
      iff_false]
    rintro ⟨rfl | hiP, hic⟩
    · exact hPC' i (Finset.mem_inter.mpr ⟨hpPend, hic⟩)
    · exact hIC' i (Finset.mem_inter.mpr ⟨hiP, hic⟩)

lemma PQInv_Complete (pq : PieceQueue) (i : Nat) (hi : i ∈ pq.inProgress)
    (hinv : PQInv pq) : PQInv (Complete pq i) := by
  obtain ⟨hAL, hB1, hMatch, hUnion, hPI, hPC, hIC⟩ := hinv
  have hPI' := Finset.eq_empty_iff_forall_not_mem.mp hPI
  have hPC' := Finset.eq_empty_iff_forall_not_mem.mp hPC
  have hIC' := Finset.eq_empty_iff_forall_not_mem.mp hIC
  have hpend : pendingSet (Complete pq i) = pendingSet pq := rfl
  refine ⟨hAL, hB1, hMatch, ?_, ?_, ?_, ?_⟩
  · show pendingSet _ ∪ pq.inProgress.erase i ∪ insert i pq.completed =
      Finset.range pq.numPieces
    rw [hpend, ← hUnion]
    ext j
    simp only [Finset.mem_union, Finset.mem_erase, Finset.mem_insert]
    by_cases hji : j = i
    · subst hji
      simp [hi]
    · tauto
  · show pendingSet _ ∩ pq.inProgress.erase i = ∅
    rw [hpend]
    ext j
    simp only [Finset.mem_inter, Finset.mem_erase, Finset.not_mem_empty,
      iff_false]
    rintro ⟨hjp, _, hjP⟩
    exact hPI' j (Finset.mem_inter.mpr ⟨hjp, hjP⟩)
  · show pendingSet _ ∩ insert i pq.completed = ∅
    rw [hpend]
    ext j
    simp only [Finset.mem_inter, Finset.mem_insert, Finset.not_mem_empty,
      iff_false]
    rintro ⟨hjp, rfl | hjc⟩
    · exact hPI' j (Finset.mem_inter.mpr ⟨hjp, hi⟩)
    · exact hPC' j (Finset.mem_inter.mpr ⟨hjp, hjc⟩)
  · show pq.inProgress.erase i ∩ insert i pq.completed = ∅
    ext j
    simp only [Finset.mem_inter, Finset.mem_erase, Finset.mem_insert,
      Finset.not_mem_empty, iff_false]
    rintro ⟨⟨hne, hjP⟩, rfl | hjc⟩
    · exact hne rfl
    · exact hIC' j (Finset.mem_inter.mpr ⟨hjP, hjc⟩)

lemma PQInv_Return (pq : PieceQueue) (i : Nat) (hinv : PQInv pq) :
    PQInv (Return pq i) := by
  unfold Return
  split
  · rename_i hi
    obtain ⟨hAL, hB1, hMatch, hUnion, hPI, hPC, hIC⟩ := hinv
    have hPI' := Finset.eq_empty_iff_forall_not_mem.mp hPI
    have hPC' := Finset.eq_empty_iff_forall_not_mem.mp hPC
    have hIC' := Finset.eq_empty_iff_forall_not_mem.mp hIC
    have htlt : pq.availability.getD i 0 <
        (ensureBucket pq.buckets (pq.availability.getD i 0)).length := by
      rw [length_ensureBucket]
      omega
    have hpend' : pendOf (insertIntoBucket
        (ensureBucket pq.buckets (pq.availability.getD i 0))
        (pq.availability.getD i 0) i) = insert i (pendingSet pq) := by
      rw [pendOf_insertIntoBucket _ _ _ htlt, pendOf_ensureBucket]
      rfl
    refine ⟨hAL, ?_, ?_, ?_, ?_, ?_, ?_⟩
    · show 1 ≤ (insertIntoBucket _ _ _).length
      rw [length_insertIntoBucket, length_ensureBucket]
      omega
    · intro k hk j hjk
      show pq.availability.getD j 0 = k
      rw [length_insertIntoBucket] at hk
      unfold insertIntoBucket at hjk
      by_cases hka : k = pq.availability.getD i 0
      · rw [hka, getD_set_eq_of_lt _ _ _ _ htlt] at hjk
        rcases Finset.mem_insert.mp hjk with rfl | hjk2
        · rw [hka]
        · rcases lt_or_ge (pq.availability.getD i 0) pq.buckets.length with hl | hg
          · rw [getD_ensureBucket_lt _ _ _ hl] at hjk2
            rw [hka]
            exact hMatch _ hl j hjk2
          · rw [getD_ensureBucket_ge _ _ _ hg] at hjk2
            exact absurd hjk2 (Finset.not_mem_empty j)
      · rw [getD_set_ne _ _ _ _ _ (fun h => hka h.symm)] at hjk
        rcases lt_or_ge k pq.buckets.length with hl | hg
        · rw [getD_ensureBucket_lt _ _ _ hl] at hjk
          exact hMatch k hl j hjk
        · rw [getD_ensureBucket_ge _ _ _ hg] at hjk
          exact absurd hjk (Finset.not_mem_empty j)
    · show pendOf _ ∪ pq.inProgress.erase i ∪ pq.completed =
        Finset.range pq.numPieces
      rw [hpend', ← hUnion]
      ext j
      simp only [Finset.mem_union, Finset.mem_insert, Finset.mem_erase]
      by_cases hji : j = i
      · subst hji
        simp [hi]
      · tauto
    · show pendOf _ ∩ pq.inProgress.erase i = ∅
      rw [hpend']
      ext j
      simp only [Finset.mem_inter, Finset.mem_insert, Finset.mem_erase,
        Finset.not_mem_empty, iff_false]
      rintro ⟨rfl | hjp, hne, hjP⟩
      · exact hne rfl
      · exact hPI' j (Finset.mem_inter.mpr ⟨hjp, hjP⟩)
    · show pendOf _ ∩ pq.completed = ∅
      rw [hpend']
      ext j
      simp only [Finset.mem_inter, Finset.mem_insert, Finset.not_mem_empty,
        iff_false]
      rintro ⟨rfl | hjp, hjc⟩
      · exact hIC' j (Finset.mem_inter.mpr ⟨hi, hjc⟩)
      · exact hPC' j (Finset.mem_inter.mpr ⟨hjp, hjc⟩)
    · show pq.inProgress.erase i ∩ pq.completed = ∅
      ext j
      simp only [Finset.mem_inter, Finset.mem_erase, Finset.not_mem_empty,
        iff_false]
      rintro ⟨⟨_, hjP⟩, hjc⟩
      exact hIC' j (Finset.mem_inter.mpr ⟨hjP, hjc⟩)
  · exact hinv

/-- Every reachable queue state satisfies the invariant. -/
lemma Reach_PQInv (pq : PieceQueue) (h : Reach pq) : PQInv pq := by
  induction h with
  | init n bf => exact PQInv_new n bf
  | register pq bf _ ih => exact PQInv_RegisterPeer pq bf ih
  | unregister pq bf _ ih => exact PQInv_UnregisterPeer pq bf ih
  | update pq i _ ih => exact PQInv_UpdateAvailability pq i ih
  | getPiece pq bf p pq' _ hrel ih => exact PQInv_getPiece pq bf p pq' ih hrel
  | complete pq i hi _ ih => exact PQInv_Complete pq i hi ih
  | ret pq i _ ih => exact PQInv_Return pq i ih

/-- The C1 scenario state: five pieces, none completed, peer A (pieces
0, 1, 2 — bitfield 0b11100000) and peer B (pieces 1, 2, 3 — bitfield
0b01110000) registered. -/
def scenarioQueue : PieceQueue :=
  RegisterPeer (RegisterPeer (NewPieceQueue 5 []) [224]) [112]

example : scenarioQueue.buckets = [{4}, ({0, 3} : Finset Nat), {1, 2}] := by decide
example : scenarioQueue.availability = [1, 2, 2, 1, 0] := by decide

lemma scenario_first (p : Nat) (pq' : PieceQueue)
    (h : GetPieceRel scenarioQueue [248] (some (p, pq'))) : p = 4 := by
  obtain ⟨a, ha, hp, hbfp, hlow, _⟩ := h
  have hlen : scenarioQueue.buckets.length = 3 := by decide
  rw [hlen] at ha
  interval_cases a
  · have hb : scenarioQueue.buckets.getD 0 ∅ = {4} := by decide
    rw [hb] at hp
    simpa using hp
  · have h4 := hlow 0 (by omega) 4 (by decide)
    exact absurd (by decide : bitfield.get [248] 4 = true) h4
  · have h4 := hlow 0 (by omega) 4 (by decide)
    exact absurd (by decide : bitfield.get [248] 4 = true) h4

lemma scenario_first_exists :
    GetPieceRel scenarioQueue [248] (some (4, takePiece scenarioQueue 0 4)) := by
  refine ⟨0, by decide, by decide, by decide, ?_, rfl⟩
  intro a2 ha2
  omega

lemma scenario_second (p : Nat) (pq'' : PieceQueue)
    (h : GetPieceRel (takePiece scenarioQueue 0 4) [248] (some (p, pq''))) :
    p = 0 ∨ p = 3 := by
  obtain ⟨a, ha, hp, hbfp, hlow, _⟩ := h
  have hlen : (takePiece scenarioQueue 0 4).buckets.length = 3 := by decide
  rw [hlen] at ha
  interval_cases a
  · have hb : (takePiece scenarioQueue 0 4).buckets.getD 0 ∅ = ∅ := by decide
    rw [hb] at hp
    exact absurd hp (Finset.not_mem_empty p)
  · have hb : (takePiece scenarioQueue 0 4).buckets.getD 1 ∅ =
        ({0, 3} : Finset Nat) := by decide
    rw [hb] at hp
    simpa using hp
  · have h0 := hlow 1 (by omega) 0 (by decide)
    exact absurd (by decide : bitfield.get [248] 0 = true) h0

lemma scenario_second_exists :
    GetPieceRel (takePiece scenarioQueue 0 4) [248]
      (some (0, takePiece (takePiece scenarioQueue 0 4) 1 0)) := by
  refine ⟨1, by decide, by decide, by decide, ?_, rfl⟩
  intro a2 ha2 i hi
  interval_cases a2
  have hb : (takePiece scenarioQueue 0 4).buckets.getD 0 ∅ = ∅ := by decide
  rw [hb] at hi
  exact absurd hi (Finset.not_mem_empty i)

/-- C2 counterexample: the partition fails for fully arbitrary operation
sequences — `Complete` on a piece that is still pending (never handed
out by `GetPiece`) leaves it both pending and completed. -/
theorem PieceQueue_partition_cex :
    pendingSet (Complete (NewPieceQueue 1 []) 0) ∩
      (Complete (NewPieceQueue 1 []) 0).completed = {0} := by decide

/-- C2 (amended): starting from `NewPieceQueue`, after any sequence of
`RegisterPeer`, `UnregisterPeer`, `UpdateAvailability`, `GetPiece`,
`Return`, and `Complete`-on-an-in-progress-piece operations (the only
way the client invokes `Complete`), the pending set (union of all
buckets), the in-progress set and the completed set are pairwise
disjoint and their union is the full set of piece indices. -/
theorem PieceQueue_partition (pq : PieceQueue) (h : Reach pq) :
    pendingSet pq ∪ pq.inProgress ∪ pq.completed = Finset.range pq.numPieces ∧
    pendingSet pq ∩ pq.inProgress = ∅ ∧
    pendingSet pq ∩ pq.completed = ∅ ∧
    pq.inProgress ∩ pq.completed = ∅ := by
  obtain ⟨_, _, _, h4, h5, h6, h7⟩ := Reach_PQInv pq h
  exact ⟨h4, h5, h6, h7⟩

/-- Witness for `PieceQueue_partition` after one registration on a
three-piece queue. -/
theorem PieceQueue_partition_witness :
    pendingSet (RegisterPeer (NewPieceQueue 3 []) [160]) ∪
      (RegisterPeer (NewPieceQueue 3 []) [160]).inProgress ∪
      (RegisterPeer (NewPieceQueue 3 []) [160]).completed =
      Finset.range (RegisterPeer (NewPieceQueue 3 []) [160]).numPieces :=
  (PieceQueue_partition _ (Reach.register _ _ (Reach.init 3 []))).1

/-- C1: in every reachable state, a piece returned by `GetPiece` was
pending, is one the peer advertises, moves to the in-progress set
(leaving the pending set), and no other pending piece the peer has sits
in a strictly lower availability bucket (its availability count is
minimal among the peer's pending pieces); in the five-piece scenario
with peers A = {0,1,2} and B = {1,2,3} registered, a peer with all
pieces must receive piece 4 first, and then one of {0, 3}. -/
theorem GetPiece_rarest_first :
    (∀ pq bf p pq', Reach pq → GetPieceRel pq bf (some (p, pq')) →
      p ∈ pendingSet pq ∧ bitfield.get bf p = true ∧ p ∈ pq'.inProgress ∧
      p ∉ pendingSet pq' ∧
      ∀ q ∈ pendingSet pq, bitfield.get bf q = true →
        pq.availability.getD p 0 ≤ pq.availability.getD q 0) ∧
    (∀ p pq', GetPieceRel scenarioQueue [248] (some (p, pq')) → p = 4) ∧
    GetPieceRel scenarioQueue [248] (some (4, takePiece scenarioQueue 0 4)) ∧
    (∀ p pq'',
      GetPieceRel (takePiece scenarioQueue 0 4) [248] (some (p, pq'')) →
      p = 0 ∨ p = 3) ∧
    GetPieceRel (takePiece scenarioQueue 0 4) [248]
      (some (0, takePiece (takePiece scenarioQueue 0 4) 1 0)) := by
  refine ⟨?_, scenario_first, scenario_first_exists, scenario_second,
    scenario_second_exists⟩
  intro pq bf p pq' hreach hrel
  have hinv := Reach_PQInv pq hreach
  obtain ⟨a, ha, hp, hbfp, hlow, rfl⟩ := hrel
  have hpend' := pendingSet_takePiece pq a p hinv ha hp
  obtain ⟨hAL, hB1, hMatch, hUnion, hPI, hPC, hIC⟩ := hinv
  have hpa : pq.availability.getD p 0 = a := hMatch a ha p hp
  refine ⟨(mem_pendOf _ _).mpr ⟨a, ha, hp⟩, hbfp,
    Finset.mem_insert_self p pq.inProgress, ?_, ?_⟩
  · rw [hpend']
    exact fun hmem => (Finset.mem_erase.mp hmem).1 rfl
  · intro q hq hbfq
    obtain ⟨k, hk, hqk⟩ := (mem_pendOf _ _).mp hq
    have hqa : pq.availability.getD q 0 = k := hMatch k hk q hqk
    rw [hpa, hqa]
    by_contra hlt
    exact (hlow k (by omega) q hqk) hbfq

/-- Witness for `GetPiece_rarest_first`: in the scenario state, piece 4
is pending and ends up in progress after the first take. -/
theorem GetPiece_rarest_first_witness :
    4 ∈ pendingSet scenarioQueue ∧
    4 ∈ (takePiece scenarioQueue 0 4).inProgress := by
  have hr : Reach scenarioQueue :=
    Reach.register _ _ (Reach.register _ _ (Reach.init 5 []))
  have h := GetPiece_rarest_first.1 scenarioQueue [248] 4
    (takePiece scenarioQueue 0 4) hr GetPiece_rarest_first.2.2.1
  exact ⟨h.1, h.2.2.1⟩

/-- C10: `Return` on a piece that is not in progress — in particular on
a pending or completed piece — leaves the whole queue state unchanged;
in reachable states a completed piece is never in progress, so it can
never re-enter the pending set through `Return`. -/
theorem Return_guarded_noop (pq : PieceQueue) (i : Nat) :
    (i ∉ pq.inProgress → Return pq i = pq) ∧
    (Reach pq → i ∈ pq.completed →
      Return pq i = pq ∧ i ∉ pendingSet (Return pq i)) := by
  have hno : i ∉ pq.inProgress → Return pq i = pq := by
    intro hni
    unfold Return
    rw [if_neg hni]
  refine ⟨hno, ?_⟩
  intro hr hic
  obtain ⟨_, _, _, _, _, hPC, hIC⟩ := Reach_PQInv pq hr
  have hni : i ∉ pq.inProgress := by
    intro hip
    exact Finset.not_mem_empty i (hIC ▸ Finset.mem_inter.mpr ⟨hip, hic⟩)
  have heq := hno hni
  refine ⟨heq, ?_⟩
  rw [heq]
  intro hpend
  exact Finset.not_mem_empty i (hPC ▸ Finset.mem_inter.mpr ⟨hpend, hic⟩)

/-- Witness for `Return_guarded_noop`: on a fresh two-piece queue with
piece 1 completed, `Return 1` is a no-op. -/
theorem Return_guarded_noop_witness :
    Return (NewPieceQueue 2 [64]) 1 = NewPieceQueue 2 [64] :=
  ((Return_guarded_noop (NewPieceQueue 2 [64]) 1).2 (Reach.init 2 [64])
    (by decide)).1

end GoTorrent
